import Mathlib

/-!
# Verification model of the iomodule firmware: 24AA EEPROM driver

Shallow embedding of `src/drivers/eeprom/mtd_24aa.cpp`.

* Machine integers are natural numbers; every `uint32_t` / `size_t` operation of
  the source is reduced modulo `2 ^ 32` (the target is a 32-bit ARM core), every
  `uint8_t` store modulo `256`.
* A buffer reached through a pointer is a function from byte index to byte value,
  so that every store of the source is recorded at the index the source uses.
* The bus driver, the scheduler and the locking of `MtdBase` are external: each
  call to them is appended to a trace of events, and the bus transaction itself
  is a parameter (any stub, or the EEPROM device model below).
* `osalDbgCheck` / `osalDbgAssert` are the fatal path: a failed check halts the
  system and the function never returns (`Outcome.halted`).
-/

namespace Nvram

/-! ## Machine arithmetic -/

/-- Number of values of a `uint32_t` (and of `size_t` on the 32-bit target). -/
abbrev W32 : Nat := 4294967296

/-- Truncation of a value to `uint32_t`. -/
def u32 (x : Nat) : Nat := x % W32

/-- Truncation of a value to `uint8_t`. -/
def u8 (x : Nat) : Nat := x % 256

/-! ## Timeout model -/

/-- Value of the local `tmo_ms` of `calc_timeout` when the `return` is reached:
`tmo_ms = ((bytes + 1) * bitsinbyte * 1000); tmo_ms /= clock; tmo_ms += 10;`
with `bitsinbyte = 10`, every step in 32-bit unsigned arithmetic. -/
def calc_timeout_ms (bytes clock : Nat) : Nat :=
  let bitsinbyte : Nat := 10
  let tmo_ms := u32 (u32 (u32 (bytes + 1) * bitsinbyte) * 1000)
  let tmo_ms := tmo_ms / clock
  u32 (tmo_ms + 10)

/-- Source function `calc_timeout`: the millisecond value converted to system
ticks by the ChibiOS conversion `MS2ST`, which is defined outside the sources
and therefore a parameter. -/
def calc_timeout (MS2ST : Nat → Nat) (bytes clock : Nat) : Nat :=
  MS2ST (calc_timeout_ms bytes clock)

/-! ## Buffers -/

/-- A byte buffer reached through a pointer: byte value at each index. -/
abbrev Buf := Nat → Nat

/-- Store of one `uint8_t` at index `i`. -/
def setByte (buf : Buf) (i v : Nat) : Buf :=
  fun j => if j = i then u8 v else buf j

/-- Copy of one byte inside a buffer, `buf[i] = buf[k]`. -/
def copyByte (buf : Buf) (i k : Nat) : Buf :=
  fun j => if j = i then buf k else buf j

/-- Library call `memcpy(&dst[pos], src, n)`. -/
def memcpy (dst : Buf) (pos : Nat) (src : Buf) (n : Nat) : Buf :=
  fun j => if pos ≤ j ∧ j < pos + n then src (j - pos) else dst j

/-- The first `n` bytes of a buffer, as handed to the bus. -/
def bytes (buf : Buf) (n : Nat) : List Nat :=
  (List.range n).map buf

/-- Store `*(uint32_t*)buf = v` in the byte order of the target. -/
def store32 (bigEndian : Bool) (buf : Buf) (v : Nat) : Buf :=
  if bigEndian then
    setByte (setByte (setByte (setByte buf 0 (v / 16777216)) 1 (v / 65536)) 2 (v / 256)) 3 v
  else
    setByte (setByte (setByte (setByte buf 0 v) 1 (v / 256)) 2 (v / 65536)) 3 (v / 16777216)

/-- Load `*(uint16_t*)buf` in the byte order of the target. -/
def load16 (bigEndian : Bool) (buf : Buf) : Nat :=
  if bigEndian then 256 * u8 (buf 0) + u8 (buf 1) else u8 (buf 0) + 256 * u8 (buf 1)

/-! ## External collaborators -/

/-- Calls that leave the driver, in the order they are made. -/
inductive Event where
  /-- Call of `MtdBase::acquire` (driver-level exclusive access). -/
  | acquire
  /-- Call of `MtdBase::release`. -/
  | release
  /-- Call of `i2cAcquireBus`. -/
  | i2cAcquireBus
  /-- Call of `i2cReleaseBus`. -/
  | i2cReleaseBus
  /-- Call of `i2cMasterTransmitTimeout(i2cp, addr, txbuf, txbytes, rxbuf, rxbytes, tmo)`;
  `txbuf` lists the `txbytes` bytes handed over. -/
  | i2cMasterTransmitTimeout (addr : Nat) (txbuf : List Nat) (rxbytes : Nat) (tmo : Nat)
  /-- Call of `osalThreadSleep`. -/
  | osalThreadSleep (t : Nat)
  deriving DecidableEq, Repr

/-- ChibiOS status `MSG_OK`. -/
def MSG_OK : Int := 0

/-- ChibiOS status `MSG_TIMEOUT`. -/
def MSG_TIMEOUT : Int := -1

/-- What one bus transaction reports: its status, the bytes it placed in the
receive buffer and the error flags `i2cGetErrors` reads afterwards. -/
structure BusReply where
  status : Int
  rx : Buf
  errors : Nat

/-- The bus driver `I2CDriver` with the device behind it, over a state `σ`. -/
structure I2CDriver (σ : Type) where
  /-- Field `config->clock_speed`. -/
  clock_speed : Nat
  /-- Behaviour of `i2cMasterTransmitTimeout addr txbuf rxbytes tmo`. -/
  transmit : σ → Nat → List Nat → Nat → Nat → BusReply × σ

/-- Compile-time configuration that lives outside the sources. -/
structure Build where
  /-- Whether `STM32F1XX_I2C` is defined (single-byte-read erratum). -/
  STM32F1XX_I2C : Bool
  /-- Value of `I2C_USE_MUTUAL_EXCLUSION`. -/
  I2C_USE_MUTUAL_EXCLUSION : Bool
  /-- Byte order of the target; `false` on the STM32 this firmware runs on. -/
  bigEndian : Bool

/-- Modelled from the spec: the device configuration `MtdConfig` (declared in
the driver's headers, which are not among the sources): "address width (1 or 2
bytes), capacity in bytes, ... post-write completion delay". `capacity` is what
`capacity()` returns, a `uint32_t`. -/
structure MtdConfig where
  addr_len : Nat
  capacity : Nat
  programtime : Nat

/-- Immutable part of a `Mtd24aa` instance. -/
structure Mtd24aa (σ : Type) where
  cfg : MtdConfig
  writebuf_size : Nat
  i2cp : I2CDriver σ
  /-- Base bus-select address `addr`. -/
  addr : Nat
  build : Build
  MS2ST : Nat → Nat

/-- Mutable state touched by a transaction. -/
structure State (σ : Type) where
  writebuf : Buf
  i2cflags : Nat
  bus : σ
  trace : List Event

/-- Modelled from the spec: the effect of a failed `osalDbgCheck` / `osalDbgAssert`
(ChibiOS OSAL macros, defined outside the sources): "caller misuse ... fatal,
assertion-style, never returned as a value". A call either ends on that fatal
path or returns a value. -/
inductive Outcome (α : Type) where
  /-- A debug check failed: the system halts, the call never returns. -/
  | halted
  /-- The call returned `v`. -/
  | returned (v : α)
  deriving DecidableEq, Repr

/-- Append an event to the trace. -/
def emit {σ : Type} (e : Event) (s : State σ) : State σ :=
  { s with trace := s.trace ++ [e] }

/-- Bytes `0 .. n-1` of `rxbuf` replaced by what the transaction received. -/
def receive (rxbuf : Buf) (n : Nat) (rx : Buf) : Buf :=
  fun j => if j < n then rx j else rxbuf j

/-- Modelled from the spec: `MtdBase::addr2buf` (defined with `MtdBase`, which is
not among the sources): "Serializes an offset into the configured address width,
most-significant byte first, into the head of the scratch buffer. For single-byte
address widths ... the encoder additionally derives a suffix that is OR-ed into
the device's bus-select address". The suffix is placed at index 1, where
`i2c_read` picks it up. Widths other than 1 and 2 are not described. -/
def addr2buf (buf : Buf) (addr addr_len : Nat) : Buf :=
  match addr_len with
  | 1 => setByte (setByte buf 0 addr) 1 (addr / 256)
  | 2 => setByte (setByte buf 0 (addr / 256)) 1 addr
  | _ => buf

/-! ## The driver -/

section Driver
variable {σ : Type}

/-- Local `addrSuffix` of `i2c_read` and `i2c_write`:
`(preamble_len == 1 ? writebuf[1] : 0)`. -/
def addrSuffix (writebuf : Buf) (preamble_len : Nat) : Nat :=
  if preamble_len = 1 then u8 (writebuf 1) else 0

/-- Scratch buffer after the payload copy of `i2c_write`:
`if((nullptr != txdata) && (0 != len)) memcpy(&writebuf[preamble_len], txdata, len);`
where `txdata = none` is the null pointer. -/
def stagePayload (writebuf : Buf) (txdata : Option Buf) (len preamble_len : Nat) : Buf :=
  match txdata with
  | some src => if len ≠ 0 then memcpy writebuf preamble_len src len else writebuf
  | none => writebuf

/-- Source function `Mtd24aa::i2c_read`. Returns the state, the receive buffer
and the status. -/
def i2c_read (d : Mtd24aa σ) (rxbuf : Buf) (len preamble_len : Nat) (s : State σ) :
    State σ × Buf × Outcome Int :=
  -- #if defined(STM32F1XX_I2C)
  let widen := d.build.STM32F1XX_I2C && decide (1 = len)
  let rewind := widen &&
    decide (load16 d.build.bigEndian s.writebuf = u32 (d.cfg.capacity + W32 - 1))
  let len := if widen then 2 else len
  let writebuf := if rewind then setByte s.writebuf 0 (s.writebuf 0 + 255) else s.writebuf
  let s := { s with writebuf := writebuf }
  -- #endif
  let tmo := calc_timeout d.MS2ST (u32 (len + preamble_len)) d.i2cp.clock_speed
  let addrSuffix := addrSuffix s.writebuf preamble_len
  -- osalDbgCheck((nullptr != rxbuf) && (0 != len))
  if len = 0 then (s, rxbuf, .halted) else
  let s := if d.build.I2C_USE_MUTUAL_EXCLUSION then emit .i2cAcquireBus s else s
  let txbuf := bytes s.writebuf preamble_len
  let s := emit (.i2cMasterTransmitTimeout (d.addr ||| addrSuffix) txbuf len tmo) s
  let reply := d.i2cp.transmit s.bus (d.addr ||| addrSuffix) txbuf len tmo
  let rxbuf := receive rxbuf len reply.1.rx
  let s := { s with bus := reply.2 }
  let s := if reply.1.status ≠ MSG_OK then { s with i2cflags := reply.1.errors } else s
  let s := if d.build.I2C_USE_MUTUAL_EXCLUSION then emit .i2cReleaseBus s else s
  let rxbuf := if rewind then copyByte rxbuf 0 1 else rxbuf
  (s, rxbuf, .returned reply.1.status)

/-- Local `rewind` of `i2c_read` behind its `STM32F1XX_I2C` block. -/
def readRewind (d : Mtd24aa σ) (len : Nat) (writebuf : Buf) : Bool :=
  d.build.STM32F1XX_I2C && decide (1 = len) &&
    decide (load16 d.build.bigEndian writebuf = u32 (d.cfg.capacity + W32 - 1))

/-- Local `len` of `i2c_read` behind its `STM32F1XX_I2C` block. -/
def readLen (d : Mtd24aa σ) (len : Nat) : Nat :=
  if d.build.STM32F1XX_I2C && decide (1 = len) then 2 else len

/-- Scratch buffer of `i2c_read` behind its `STM32F1XX_I2C` block. -/
def readBuf (d : Mtd24aa σ) (len : Nat) (writebuf : Buf) : Buf :=
  if readRewind d len writebuf then setByte writebuf 0 (writebuf 0 + 255) else writebuf

/-- Source function `Mtd24aa::i2c_write`; `txdata = none` is the null pointer. -/
def i2c_write (d : Mtd24aa σ) (txdata : Option Buf) (len preamble_len : Nat)
    (s : State σ) : State σ × Int :=
  let tmo := calc_timeout d.MS2ST (u32 (len + preamble_len)) d.i2cp.clock_speed
  let addrSuffix := addrSuffix s.writebuf preamble_len
  let s := { s with writebuf := stagePayload s.writebuf txdata len preamble_len }
  let s := if d.build.I2C_USE_MUTUAL_EXCLUSION then emit .i2cAcquireBus s else s
  let txbuf := bytes s.writebuf (u32 (preamble_len + len))
  let s := emit (.i2cMasterTransmitTimeout (d.addr ||| addrSuffix) txbuf 0 tmo) s
  let reply := d.i2cp.transmit s.bus (d.addr ||| addrSuffix) txbuf 0 tmo
  let s := { s with bus := reply.2 }
  let s := if reply.1.status ≠ MSG_OK then { s with i2cflags := reply.1.errors } else s
  let s := if d.build.I2C_USE_MUTUAL_EXCLUSION then emit .i2cReleaseBus s else s
  (s, reply.1.status)

/-- Source function `Mtd24aa::wait_op_complete`. -/
def wait_op_complete (d : Mtd24aa σ) (s : State σ) : State σ :=
  if d.cfg.programtime ≠ 0 then emit (.osalThreadSleep d.cfg.programtime) s else s

/-- Source function `Mtd24aa::bus_write`. -/
def bus_write (d : Mtd24aa σ) (txdata : Option Buf) (len offset : Nat) (s : State σ) :
    State σ × Outcome Nat :=
  -- osalDbgCheck((this->writebuf_size - cfg.addr_len) >= len)
  if ¬ (u32 (d.writebuf_size + W32 - d.cfg.addr_len) ≥ len) then (s, .halted) else
  -- osalDbgAssert((offset + len) <= capacity(), "Transaction out of device bounds")
  if ¬ (u32 (offset + len) ≤ d.cfg.capacity) then (s, .halted) else
  let s := emit .acquire s
  let s := { s with writebuf := store32 d.build.bigEndian s.writebuf offset }
  let r := i2c_write d txdata len d.cfg.addr_len s
  let s := wait_op_complete d r.1
  let s := emit .release s
  if r.2 = MSG_OK then (s, .returned len) else (s, .returned 0)

/-- Source function `Mtd24aa::bus_read`. -/
def bus_read (d : Mtd24aa σ) (rxbuf : Buf) (len offset : Nat) (s : State σ) :
    State σ × Buf × Outcome Nat :=
  -- osalDbgAssert((offset + len) <= capacity(), "Transaction out of device bounds")
  if ¬ (u32 (offset + len) ≤ d.cfg.capacity) then (s, rxbuf, .halted) else
  -- osalDbgCheck(this->writebuf_size >= cfg.addr_len)
  if ¬ (d.writebuf_size ≥ d.cfg.addr_len) then (s, rxbuf, .halted) else
  let s := emit .acquire s
  let s := { s with writebuf := addr2buf s.writebuf offset d.cfg.addr_len }
  let r := i2c_read d rxbuf len d.cfg.addr_len s
  match r.2.2 with
  | .halted => (r.1, r.2.1, .halted)
  | .returned status =>
    let s := emit .release r.1
    if MSG_OK = status then (s, r.2.1, .returned len) else (s, r.2.1, .returned 0)

end Driver

/-! ## Fault-free device model -/

/-- Memory address a transaction selects: the preamble bytes most-significant
byte first, preceded for a one-byte address width by the bits the bus-select
address carries beyond the device base address. -/
def eepromAddress (addr_len base busaddr : Nat) (txbuf : List Nat) : Nat :=
  match addr_len with
  | 1 => 256 * (busaddr ^^^ base) + txbuf.getD 0 0
  | _ => 256 * txbuf.getD 0 0 + txbuf.getD 1 0

/-- Fault-free memory device with one or two address bytes: a transaction without
receive phase stores the bytes after the preamble from the selected address on, a
transaction with a receive phase answers with the stored bytes from the selected
address on. Every transaction reports `MSG_OK`. The state is the memory content. -/
def eepromTransmit (addr_len base : Nat) (mem : Buf) (busaddr : Nat) (txbuf : List Nat)
    (rxbytes _tmo : Nat) : BusReply × Buf :=
  let a := eepromAddress addr_len base busaddr txbuf
  if rxbytes = 0 then
    (⟨MSG_OK, fun _ => 0, 0⟩,
      fun j => if a ≤ j ∧ j < a + (txbuf.length - addr_len)
        then txbuf.getD (addr_len + (j - a)) 0 else mem j)
  else
    (⟨MSG_OK, fun i => mem (a + i), 0⟩, mem)

/-- Bus driver with the fault-free device behind it. -/
def eepromBus (addr_len base clock_speed : Nat) : I2CDriver Buf :=
  { clock_speed := clock_speed, transmit := eepromTransmit addr_len base }

/-- Bus stub that answers every transaction with a fixed reply. -/
def stubBus (clock_speed : Nat) (reply : BusReply) : I2CDriver Unit :=
  { clock_speed := clock_speed, transmit := fun _ _ _ _ _ => (reply, ()) }

/-- A driver instance on the fault-free device. -/
def eepromDriver (b : Build) (addr_len capacity writebuf_size programtime : Nat) :
    Mtd24aa Buf :=
  { cfg := { addr_len := addr_len, capacity := capacity, programtime := programtime }
    writebuf_size := writebuf_size
    i2cp := eepromBus addr_len 80 100000
    addr := 80
    build := b
    MS2ST := fun ms => ms }

/-- A driver instance on a stub bus. -/
def stubDriver (b : Build) (addr_len capacity writebuf_size programtime : Nat)
    (reply : BusReply) : Mtd24aa Unit :=
  { cfg := { addr_len := addr_len, capacity := capacity, programtime := programtime }
    writebuf_size := writebuf_size
    i2cp := stubBus 100000 reply
    addr := 80
    build := b
    MS2ST := fun ms => ms }

/-- Initial state: cleared scratch buffer, no error flags, empty trace. -/
def State.init {σ : Type} (bus : σ) : State σ :=
  { writebuf := fun _ => 0, i2cflags := 0, bus := bus, trace := [] }

/-- A byte buffer holding the given bytes (zero beyond them). -/
def ofList (l : List Nat) : Buf := fun i => l.getD i 0

/-- The little-endian STM32F1 build with bus locking. -/
def stm32f1 : Build :=
  { STM32F1XX_I2C := true, I2C_USE_MUTUAL_EXCLUSION := true, bigEndian := false }

/-- A little-endian build without the read erratum. -/
def plainBuild : Build :=
  { STM32F1XX_I2C := false, I2C_USE_MUTUAL_EXCLUSION := true, bigEndian := false }

/-- Reply of a bus transaction that succeeded. -/
def okReply : BusReply := ⟨MSG_OK, fun _ => 0, 0⟩

/-- Reply of a bus transaction that ran into its deadline. -/
def timeoutReply : BusReply := ⟨MSG_TIMEOUT, fun _ => 0, 1⟩

/-! ## Concrete scenarios -/

/-- Memory content of an erased device. -/
def erased : Buf := fun _ => 255

/-- The device of the spec's scenario: capacity 256, address width 1, page size
8 (scratch buffer of 1 + 8 bytes), write-cycle delay 5, on the fault-free device. -/
def dev256 (b : Build) : Mtd24aa Buf := eepromDriver b 1 256 9 5

/-- A device with two address bytes: capacity 8192, page size 32. -/
def dev8k (b : Build) : Mtd24aa Buf := eepromDriver b 2 8192 34 5

/-- A device with two address bytes and capacity 65536, page size 128. -/
def dev64k (b : Build) : Mtd24aa Buf := eepromDriver b 2 65536 130 5

/-- Memory content with 170 in the last byte of a 65536-byte device and 85 at
address 0xFF00. -/
def mem64k : Buf := fun j => if j = 65535 then 170 else if j = 65280 then 85 else 0

/-- State after `bus_write("AB", 2, 1)` on the erased 8192-byte device. -/
def afterWrite8k (b : Build) : State Buf :=
  (bus_write (dev8k b) (some (ofList [65, 66])) 2 1 (State.init erased)).1

/-! ## Reading a trace, scripted bus -/

/-- Arguments of the bus transactions recorded in a trace, in order: bus-select
address, transmitted bytes, receive length and deadline of each. -/
def transactions : List Event → List (Nat × List Nat × Nat × Nat)
  | [] => []
  | .i2cMasterTransmitTimeout a tx rx tmo :: es => (a, tx, rx, tmo) :: transactions es
  | .acquire :: es => transactions es
  | .release :: es => transactions es
  | .i2cAcquireBus :: es => transactions es
  | .i2cReleaseBus :: es => transactions es
  | .osalThreadSleep _ :: es => transactions es

/-- Initial state with every scratch byte set to 170, to make stores visible. -/
def markedState : State Unit :=
  { writebuf := fun _ => 170, i2cflags := 0, bus := (), trace := [] }

end Nvram

/-!
# Modbus input-register callback

Shallow embedding of `eMBRegInputCB` of `src/source/modbus_impl.cpp`. `USHORT`
values are natural numbers reduced modulo `2 ^ 16`; the register buffer is seen
through `regBuffer16`, as 16-bit cells. The data sources (`Digital::input`,
`Analog::input`) and the byte-order helpers are defined outside the sources and
are parameters.
-/

namespace Modbus

/-- Enumerator `R_AnalogInputStart` of `enum Range`. -/
def R_AnalogInputStart : Nat := 32

/-- Enumerator `R_AnalogInputSize` of `enum Range`. -/
def R_AnalogInputSize : Nat := 10

/-- Enumerator `R_CounterStart` of `enum Range`. -/
def R_CounterStart : Nat := 64

/-- Enumerator `R_CounterSize` of `enum Range`. -/
def R_CounterSize : Nat := 14 * 2

/-- Enumerator `R_DigitalInputStart` of `enum Range`. -/
def R_DigitalInputStart : Nat := 96

/-- Enumerator `R_DigitalInputSize` of `enum Range`. -/
def R_DigitalInputSize : Nat := 1

/-- The two values of `eMBErrorCode` the callback returns. -/
inductive eMBErrorCode where
  | MB_ENOERR
  | MB_ENOREG
  deriving DecidableEq, Repr

/-- What the callback reads from outside: `Digital::input.GetBinaryVal()`, the
arrays returned by `Digital::input.GetCounters()` and `Analog::input.GetSamples()`
(value at each index) and the conversions `Utils::htons` and `Utils::htonl`. -/
structure Inputs where
  binaryVal : Nat
  counters : Nat → Nat
  samples : Nat → Nat
  htons : Nat → Nat
  htonl : Nat → Nat

/-- Memory effect of one call: the register buffer, the indices of `regBuffer16`
stored to, and the indices at which the counters and the samples were read, each
in the order of the accesses. -/
structure Effect where
  regBuffer16 : Nat → Nat
  stores : List Nat
  counterReads : List Nat
  sampleReads : List Nat

/-- Store `regBuffer16[pos] = v` of a 16-bit value. -/
def store (e : Effect) (pos v : Nat) : Effect :=
  { e with
    regBuffer16 := fun j => if j = pos then v % 65536 else e.regBuffer16 j
    stores := e.stores ++ [pos] }

/-- The loop of the counters branch:
`while(usNRegs > 0) { beVal = htonl(counters[iRegIndex]); *regBuffer16++ = beVal & 0xFFFF;
*regBuffer16++ = beVal >> 16; ++iRegIndex; usNRegs -= 2; }` with `usNRegs` a
`USHORT`. `pos` is how far `regBuffer16` has advanced. The first argument bounds
the number of loop tests; `none` means the bound was reached. -/
def countersLoop (inp : Inputs) : Nat → Nat → Nat → Nat → Effect → Option Effect
  | 0, _, _, _, _ => none
  | fuel + 1, usNRegs, iRegIndex, pos, e =>
    if usNRegs > 0 then
      let beVal := inp.htonl (inp.counters iRegIndex)
      let e := { e with counterReads := e.counterReads ++ [iRegIndex] }
      let e := store e pos (beVal % 65536)
      let e := store e (pos + 1) (beVal / 65536)
      countersLoop inp fuel ((usNRegs + 65536 - 2) % 65536) (iRegIndex + 1) (pos + 2) e
    else some e

/-- The loop of the analog branch:
`while(usNRegs > 0) { *regBuffer16++ = htons(inputs[iRegIndex]); ++iRegIndex; --usNRegs; }`. -/
def analogLoop (inp : Inputs) : Nat → Nat → Nat → Effect → Effect
  | 0, _, _, e => e
  | usNRegs + 1, iRegIndex, pos, e =>
    let v := inp.htons (inp.samples iRegIndex)
    let e := { e with sampleReads := e.sampleReads ++ [iRegIndex] }
    analogLoop inp usNRegs (iRegIndex + 1) (pos + 1) (store e pos v)

/-- Source function `eMBRegInputCB`: the status and the memory effect. The
counters loop gets 32768 loop tests, enough for every even 16-bit count. -/
def eMBRegInputCB (inp : Inputs) (regBuffer16 : Nat → Nat) (usAddress usNRegs : Nat) :
    Option (eMBErrorCode × Effect) :=
  let e : Effect := ⟨regBuffer16, [], [], []⟩
  -- --usAddress
  let usAddress := (usAddress + 65535) % 65536
  if usAddress = R_DigitalInputStart then
    if usNRegs = R_DigitalInputSize then
      some (.MB_ENOERR, store e 0 (inp.htons inp.binaryVal))
    else some (.MB_ENOREG, e)
  else if usAddress ≥ R_CounterStart then
    let iRegIndex := usAddress - R_CounterStart
    if usNRegs + iRegIndex ≤ R_CounterSize ∧ usNRegs % 2 = 0 then
      (countersLoop inp 32768 usNRegs iRegIndex 0 e).map (fun e => (.MB_ENOERR, e))
    else some (.MB_ENOREG, e)
  else if usAddress ≥ R_AnalogInputStart then
    let iRegIndex := usAddress - R_AnalogInputStart
    if usNRegs + iRegIndex ≤ R_AnalogInputSize then
      some (.MB_ENOERR, analogLoop inp usNRegs iRegIndex 0 e)
    else some (.MB_ENOREG, e)
  else some (.MB_ENOREG, e)

/-- Inputs for concrete runs: counter `i` holds `1000 + i`, sample `i` holds
`2000 + i`, and the conversions leave their argument as it is. -/
def testInputs : Inputs :=
  { binaryVal := 5, counters := fun i => 1000 + i, samples := fun i => 2000 + i,
    htons := fun v => v, htonl := fun v => v }

end Modbus

/-!
# Fixed-capacity 1-Wire device list

Shallow embedding of `src/utils/owlist.cpp`. The table `intlist` is a list of
entries whose length is `MaxListCount`; a pointer to an entry is the index of the
entry, the null pointer is `none`, and a pointer into the raw table memory is a
byte offset from its start. `MaxListCount`, `sizeof(intlist)` and the entry type
are declared outside the sources: the first two are parameters, the fields of an
entry are those the code uses.
-/

namespace OWire

/-- The 8 bytes of a 1-Wire ID, as `memcmp(.., .., 8)` and `memcpy(.., .., 8)`
see them. -/
abbrev OWID := Fin 8 → Nat

/-- The constant `idzero`. -/
def idzero : OWID := fun _ => 0

/-- An entry `OWListElm`, with the fields the code reads and writes. -/
structure OWListElm where
  ID : OWID
  Temperature : Nat
  Humidity : Nat
  deriving DecidableEq

/-- The table `intlist`; its length is `MaxListCount`. -/
abbrev OWList := List OWListElm

/-- The scan `for (i = ..; i < MaxListCount; i++) if (!memcmp(intlist[i].ID, id, 8)) return
&intlist[i];` over the entries from index `i` on; `none` when the scan runs off the
table. -/
def scanFrom (id : OWID) : List OWListElm → Nat → Option Nat
  | [], _ => none
  | e :: es, i => if e.ID = id then some i else scanFrom id es (i + 1)

/-- Source function `OWList::FindElm`. -/
def FindElm (l : OWList) (id : OWID) : Option Nat :=
  scanFrom id l 0

/-- Source function `OWList::FindOrAddElm`: the entry returned and the table. -/
def FindOrAddElm (l : OWList) (id : OWID) : Option Nat × OWList :=
  match FindElm l id with
  | some i => (some i, l)
  | none =>
    match scanFrom idzero l 0 with
    | some i => (some i, l.set i { ID := id, Temperature := 0xffff, Humidity := 0xffff })
    | none => (none, l)

/-- Source function `OWList::ClearAll`: `memset(intlist, 0x00, sizeof(intlist))`. -/
def ClearAll (l : OWList) : OWList :=
  List.replicate l.length { ID := idzero, Temperature := 0, Humidity := 0 }

/-- Source function `OWList::AddElm`: the result and the table. -/
def AddElm (l : OWList) (id : OWID) : Bool × OWList :=
  ((FindOrAddElm l id).1.isSome, (FindOrAddElm l id).2)

/-- Assignment through an entry pointer: the entry at index `i` replaced by its
image under `f`. -/
def assign (f : OWListElm → OWListElm) : List OWListElm → Nat → List OWListElm
  | [], _ => []
  | e :: es, 0 => f e :: es
  | e :: es, i + 1 => e :: assign f es i

/-- Source function `OWList::SetTemperature`: the result and the table. -/
def SetTemperature (l : OWList) (id : OWID) (temperature : Nat) : Bool × OWList :=
  match FindElm l id with
  | none => (false, l)
  | some i => (true, assign (fun e => { e with Temperature := temperature }) l i)

/-- Source function `OWList::SetHumidity`: the result and the table. -/
def SetHumidity (l : OWList) (id : OWID) (humidity : Nat) : Bool × OWList :=
  match FindElm l id with
  | none => (false, l)
  | some i => (true, assign (fun e => { e with Humidity := humidity }) l i)

/-- Source function `OWList::GetModbusMem`: the byte offset into the table
memory that is returned, `none` for the null pointer. `address + size` is an
`int` sum of two 16-bit values. -/
def GetModbusMem (sizeofIntlist address size : Nat) : Option Nat :=
  if address + size > sizeofIntlist then none else some address

/-- Source function `OWList::GetOWIDByListPosition`: the index of the entry
whose ID is returned, `none` for the null pointer. The comparison
`listPos >= MaxListCount` is signed when `MaxListCount` is an `int` constant and
made on `listPos` modulo `2 ^ 32` when it is an unsigned one. -/
def GetOWIDByListPosition (countIsUnsigned : Bool) (MaxListCount : Nat) (listPos : Int) :
    Option Int :=
  if countIsUnsigned then
    if listPos % 4294967296 ≥ (MaxListCount : Int) then none else some listPos
  else
    if listPos ≥ (MaxListCount : Int) then none else some listPos

/-- A call that changes the table. -/
inductive Op where
  | add (id : OWID)
  | setTemperature (id : OWID) (temperature : Nat)
  | setHumidity (id : OWID) (humidity : Nat)

/-- The table after one call. -/
def step (l : OWList) : Op → OWList
  | .add id => (AddElm l id).2
  | .setTemperature id t => (SetTemperature l id t).2
  | .setHumidity id h => (SetHumidity l id h).2

/-- The table after a sequence of calls. -/
def run (l : OWList) (ops : List Op) : OWList :=
  ops.foldl step l

/-- Some call `AddElm(id)` of the sequence, made after `ClearAll` on the table
`l0`, returned true. -/
def addedBy (l0 : OWList) (ops : List Op) (id : OWID) : Prop :=
  ∃ before after, ops = before ++ Op.add id :: after ∧
    (AddElm (run (ClearAll l0) before) id).1 = true

/-- The IDs of the table, entry by entry. -/
def ids (l : OWList) : List OWID :=
  l.map (fun e => e.ID)

/-- No two entries hold the same ID other than the all-zero one. -/
def NoDuplicate (l : OWList) : Prop :=
  ∀ (i j : Nat) (x : OWID),
    (ids l)[i]? = some x → (ids l)[j]? = some x → x ≠ idzero → i = j

/-- No all-zero-ID entry precedes an entry with another ID: the entries in use
form the head of the table. -/
def UsedFirst (l : OWList) : Prop :=
  ∀ (i j : Nat) (x : OWID),
    i < j → (ids l)[i]? = some idzero → (ids l)[j]? = some x → x = idzero

/-- A table of `n` entries with arbitrary content (ID bytes 1 .. 8). -/
def junkTable (n : Nat) : OWList :=
  List.replicate n { ID := fun i => i.val + 1, Temperature := 7, Humidity := 9 }

/-- An ID for concrete runs: the 8 bytes 40, 1, 2, 3, 4, 5, 6, 7. -/
def sampleId : OWID := fun i => if i.val = 0 then 40 else i.val

end OWire

namespace Nvram

/-! ## Lemmas on the timeout arithmetic -/

/-- The scaled size of `calc_timeout` is a multiple of 16 below `2 ^ 32`. -/
theorem scaled_le (b : Nat) : u32 (u32 (u32 (b + 1) * 10) * 1000) ≤ 4294967280 := by
  unfold u32 W32
  omega

/-- Below 429496 bytes the scaled size does not wrap. -/
theorem scaled_exact (b : Nat) (h : b ≤ 429495) :
    u32 (u32 (u32 (b + 1) * 10) * 1000) = (b + 1) * 10000 := by
  unfold u32 W32
  omega

/-- The final addition of the safety margin never wraps. -/
theorem calc_timeout_ms_eq (b c : Nat) :
    calc_timeout_ms b c = u32 (u32 (u32 (b + 1) * 10) * 1000) / c + 10 := by
  have h := scaled_le b
  have h2 : u32 (u32 (u32 (b + 1) * 10) * 1000) / c ≤ u32 (u32 (u32 (b + 1) * 10) * 1000) :=
    Nat.div_le_self _ _
  show u32 (u32 (u32 (u32 (b + 1) * 10) * 1000) / c + 10) = _
  generalize u32 (u32 (u32 (b + 1) * 10) * 1000) / c = q at *
  unfold u32 W32
  omega

/-! ## Claims on the timeout model -/

/-- C6, as stated, fails: at 100 kHz the timeout of 429496 bytes (10 ms) is below
the timeout of 429495 bytes (42959 ms), because the scaled size wraps at 2^32. -/
theorem calc_timeout_size_wraps :
    0 < 100000 ∧ 429495 ≤ 429496 ∧ 429496 < W32 ∧
    calc_timeout_ms 429495 100000 = 42959 ∧ calc_timeout_ms 429496 100000 = 10 ∧
    ¬ (calc_timeout_ms 429495 100000 ≤ calc_timeout_ms 429496 100000) := by
  decide

/-- C6, amended: for every clock > 0 and sizes b1 ≤ b2 ≤ 429495 (the sizes whose
scaled value (b + 1) * 10000 fits 32 bits) the millisecond value of calc_timeout
for b1 is at most the one for b2, and so is the tick value for every monotone
conversion MS2ST. -/
theorem calc_timeout_mono_size (clock b1 b2 : Nat) (_hclock : 0 < clock)
    (hb : b1 ≤ b2) (hfit : b2 ≤ 429495) :
    calc_timeout_ms b1 clock ≤ calc_timeout_ms b2 clock ∧
    ∀ MS2ST : Nat → Nat, Monotone MS2ST →
      calc_timeout MS2ST b1 clock ≤ calc_timeout MS2ST b2 clock := by
  have hms : calc_timeout_ms b1 clock ≤ calc_timeout_ms b2 clock := by
    rw [calc_timeout_ms_eq, calc_timeout_ms_eq, scaled_exact b1 (le_trans hb hfit),
      scaled_exact b2 hfit]
    have hle : (b1 + 1) * 10000 ≤ (b2 + 1) * 10000 :=
      Nat.mul_le_mul_right _ (Nat.succ_le_succ hb)
    exact Nat.add_le_add_right (Nat.div_le_div_right hle) 10
  exact ⟨hms, fun _ hmono => hmono hms⟩

/-- Instance of the amended C6 at 100 kHz for 2 and 10 bytes. -/
theorem calc_timeout_mono_size_witness :
    calc_timeout_ms 2 100000 ≤ calc_timeout_ms 10 100000 :=
  (calc_timeout_mono_size 100000 2 10 (by decide) (by decide) (by decide)).1

/-- C7: for every size b and clocks 0 < c1 ≤ c2 the millisecond value of
calc_timeout at c2 is at most the one at c1, in the wrap-around arithmetic of the
code and for every size, wrapped or not. -/
theorem calc_timeout_anti_clock (b c1 c2 : Nat) (hc1 : 0 < c1) (hc : c1 ≤ c2) :
    calc_timeout_ms b c2 ≤ calc_timeout_ms b c1 := by
  rw [calc_timeout_ms_eq, calc_timeout_ms_eq]
  exact Nat.add_le_add_right (Nat.div_le_div_left hc hc1) 10

/-- Instance of C7: 3 bytes at 100 kHz and 400 kHz. -/
theorem calc_timeout_anti_clock_witness :
    calc_timeout_ms 3 400000 ≤ calc_timeout_ms 3 100000 :=
  calc_timeout_anti_clock 3 100000 400000 (by decide) (by decide)

/-- C8: for every size and every clock > 0 the millisecond value of calc_timeout
is at least the safety margin of 10 ms, wrap-around included. -/
theorem calc_timeout_ge_margin (b clock : Nat) (_hclock : 0 < clock) :
    10 ≤ calc_timeout_ms b clock := by
  rw [calc_timeout_ms_eq]
  exact Nat.le_add_left 10 _

/-- Instance of C8 at a size whose scaled value wraps. -/
theorem calc_timeout_ge_margin_witness :
    10 ≤ calc_timeout_ms 4294967295 1 :=
  calc_timeout_ge_margin 4294967295 1 (by decide)

/-! ## Claims on the bounds checks -/

/-- C1 fails on the code at offset 0xFFFFFFFF, length 2, capacity 256: the real
sum exceeds the capacity, the 32-bit sum `offset + len` wraps to 1, both checks
pass, and bus_write as well as bus_read acquire the driver and issue a bus
transaction instead of taking the fatal path. -/
theorem bounds_check_wraps :
    256 < 4294967295 + 2 ∧
    (bus_write (stubDriver stm32f1 1 256 9 5 okReply) (some (ofList [65, 66])) 2 4294967295
        (State.init ())).2 = .returned 2 ∧
    (bus_write (stubDriver stm32f1 1 256 9 5 okReply) (some (ofList [65, 66])) 2 4294967295
        (State.init ())).1.trace =
      [.acquire, .i2cAcquireBus, .i2cMasterTransmitTimeout 255 [255, 65, 66] 0 10,
        .i2cReleaseBus, .osalThreadSleep 5, .release] ∧
    (bus_read (stubDriver stm32f1 1 256 9 5 okReply) (ofList [0, 0]) 2 4294967295
        (State.init ())).2.2 = .returned 2 ∧
    (bus_read (stubDriver stm32f1 1 256 9 5 okReply) (ofList [0, 0]) 2 4294967295
        (State.init ())).1.trace =
      [.acquire, .i2cAcquireBus, .i2cMasterTransmitTimeout 255 [255] 2 10,
        .i2cReleaseBus, .release] := by
  decide

/-- C4, as stated, fails: with capacity 256 and address width 1 the call
bus_write(data10, 10, 250) ends on the fatal path and returns nothing, in
particular not 0 (it does issue no call at all). -/
theorem write_out_of_bounds_does_not_return :
    (bus_write (stubDriver stm32f1 1 256 32 5 okReply)
        (some (ofList [1, 2, 3, 4, 5, 6, 7, 8, 9, 10])) 10 250 (State.init ())).2 = .halted ∧
    (bus_write (stubDriver stm32f1 1 256 32 5 okReply)
        (some (ofList [1, 2, 3, 4, 5, 6, 7, 8, 9, 10])) 10 250 (State.init ())).2 ≠ .returned 0 ∧
    (bus_write (stubDriver stm32f1 1 256 32 5 okReply)
        (some (ofList [1, 2, 3, 4, 5, 6, 7, 8, 9, 10])) 10 250 (State.init ())).1.trace = [] := by
  decide

/-- C4, amended: with capacity 256 and address width 1, bus_write(data10, 10, 250)
fails a check before the acquire (the bounds check, or the scratch-buffer check
before it when the buffer is too small), ends on the fatal path without returning
a value, and leaves the state as it was: no event, so no bus call, is issued.
This holds for every bus, build, scratch buffer size and state. -/
theorem write_out_of_bounds_halts {σ : Type} (d : Mtd24aa σ) (txdata : Option Buf)
    (s : State σ) (hcap : d.cfg.capacity = 256) (_hlen : d.cfg.addr_len = 1) :
    bus_write d txdata 10 250 s = (s, .halted) := by
  unfold bus_write
  have h : ¬ (u32 (250 + 10) ≤ d.cfg.capacity) := by
    rw [hcap]; decide
  by_cases h1 : u32 (d.writebuf_size + W32 - d.cfg.addr_len) ≥ 10
  · simp [h1, h]
  · simp [h1]

/-- Instance of the amended C4 on the stub bus: the outcome is the fatal path and
the trace stays empty. -/
theorem write_out_of_bounds_halts_witness :
    (bus_write (stubDriver stm32f1 1 256 32 5 okReply)
        (some (ofList [1, 2, 3, 4, 5, 6, 7, 8, 9, 10])) 10 250 (State.init ())).2 = .halted ∧
    (bus_write (stubDriver stm32f1 1 256 32 5 okReply)
        (some (ofList [1, 2, 3, 4, 5, 6, 7, 8, 9, 10])) 10 250 (State.init ())).1.trace
      = (State.init ()).trace := by
  rw [write_out_of_bounds_halts (stubDriver stm32f1 1 256 32 5 okReply) _ _ rfl rfl]
  exact ⟨rfl, rfl⟩

/-! ## Claims on the transferred bytes -/

/-- C2 fails on the code for address width 2: on the fault-free 8192-byte device,
bus_write("AB", 2, 1) hands the preamble 01 00 to the bus (the 32-bit store puts
the low byte first), so the payload lands at address 256; bus_read(rx, 2, 1)
sends 00 01 and reads address 1. Both calls return 2 and rx holds the erased
bytes FF FF instead of "AB". -/
theorem round_trip_fails_two_byte_address :
    1 + 2 ≤ (dev8k stm32f1).cfg.capacity ∧
    2 ≤ (dev8k stm32f1).writebuf_size - (dev8k stm32f1).cfg.addr_len ∧
    (bus_write (dev8k stm32f1) (some (ofList [65, 66])) 2 1 (State.init erased)).2
      = .returned 2 ∧
    (bus_read (dev8k stm32f1) (ofList [0, 0]) 2 1 (afterWrite8k stm32f1)).2.2
      = .returned 2 ∧
    bytes (bus_read (dev8k stm32f1) (ofList [0, 0]) 2 1 (afterWrite8k stm32f1)).2.1 2
      = [255, 255] ∧
    (afterWrite8k stm32f1).bus 1 = 255 ∧
    (afterWrite8k stm32f1).bus 256 = 65 ∧ (afterWrite8k stm32f1).bus 257 = 66 := by
  decide

/-- C5 fails on the code for address width 2 and capacity 65536 with the erratum
flag set: bus_read(rx, 1, 65535) finds the preamble FF FF equal to capacity - 1,
decrements its first byte, which is the high address byte, reads two bytes from
address 0xFEFF and leaves in rx[0] the byte stored at 0xFF00 (85), not the byte
at 65535 (170). -/
theorem erratum_read_wrong_byte :
    mem64k ((dev64k stm32f1).cfg.capacity - 1) = 170 ∧
    (bus_read (dev64k stm32f1) (ofList [0, 0]) 1 65535 (State.init mem64k)).2.2
      = .returned 1 ∧
    (bus_read (dev64k stm32f1) (ofList [0, 0]) 1 65535 (State.init mem64k)).2.1 0 = 85 ∧
    (bus_read (dev64k stm32f1) (ofList [0, 0]) 1 65535 (State.init mem64k)).1.trace =
      [.acquire, .i2cAcquireBus, .i2cMasterTransmitTimeout 80 [254, 255] 2 10,
        .i2cReleaseBus, .release] := by
  decide

/-- C9 fails on the code for address width 2: bus_write("AB", 2, 0x0102) hands
the bytes 02 01 41 42 to the bus on the little-endian target (00 00 41 42 on a
big-endian one), not the offset most-significant byte first, 01 02 41 42. -/
theorem write_preamble_not_msb_first :
    (bus_write (dev8k stm32f1) (some (ofList [65, 66])) 2 258 (State.init erased)).1.trace =
      [.acquire, .i2cAcquireBus, .i2cMasterTransmitTimeout 80 [2, 1, 65, 66] 0 10,
        .i2cReleaseBus, .osalThreadSleep 5, .release] ∧
    (bus_write (dev8k { stm32f1 with bigEndian := true }) (some (ofList [65, 66])) 2 258
        (State.init erased)).1.trace =
      [.acquire, .i2cAcquireBus, .i2cMasterTransmitTimeout 80 [0, 0, 65, 66] 0 10,
        .i2cReleaseBus, .osalThreadSleep 5, .release] := by
  decide

/-! ## Claims on the result and on the order of events -/

/-- Status reported by the transaction `i2c_write` issues. -/
theorem i2c_write_status {σ : Type} (d : Mtd24aa σ) (st : Int)
    (hbus : ∀ b a t r tm, (d.i2cp.transmit b a t r tm).1.status = st)
    (txdata : Option Buf) (len pre : Nat) (s : State σ) :
    (i2c_write d txdata len pre s).2 = st := by
  simp only [i2c_write]
  exact hbus _ _ _ _ _

/-- Status returned by `i2c_read` for a non-empty read: the one its transaction
reports, whether or not the erratum path widened the read. -/
theorem i2c_read_status {σ : Type} (d : Mtd24aa σ) (st : Int)
    (hbus : ∀ b a t r tm, (d.i2cp.transmit b a t r tm).1.status = st)
    (rxbuf : Buf) (len pre : Nat) (s : State σ) (hlen : len ≠ 0) :
    (i2c_read d rxbuf len pre s).2.2 = .returned st := by
  unfold i2c_read
  have hlen2 : (if (d.build.STM32F1XX_I2C && decide (1 = len)) = true then 2 else len) ≠ 0 := by
    split <;> omega
  simp only [hlen2, if_false]
  rw [hbus]

/-- A bus_read of length 0 at offset 0 issues no bus transaction: the check
`0 != len` of i2c_read ends it on the fatal path, after the driver acquire and
before any bus call. -/
theorem read_zero_length_halts :
    0 + 0 ≤ 256 ∧
    (bus_read (stubDriver stm32f1 1 256 9 5 okReply) (ofList [0]) 0 0 (State.init ())).2.2
      = .halted ∧
    (bus_read (stubDriver stm32f1 1 256 9 5 okReply) (ofList [0]) 0 0 (State.init ())).2.2
      ≠ .returned 0 ∧
    (bus_read (stubDriver stm32f1 1 256 9 5 okReply) (ofList [0]) 0 0 (State.init ())).1.trace
      = [.acquire] := by
  decide

/-- Events of `i2c_write` on a build with bus locking: bus acquire, the transmit
transaction with its arguments, bus release. -/
theorem i2c_write_trace {σ : Type} (d : Mtd24aa σ) (txdata : Option Buf)
    (len pre : Nat) (s : State σ) (hmutex : d.build.I2C_USE_MUTUAL_EXCLUSION = true) :
    (i2c_write d txdata len pre s).1.trace =
      s.trace ++ [Event.i2cAcquireBus,
        Event.i2cMasterTransmitTimeout (d.addr ||| addrSuffix s.writebuf pre)
          (bytes (stagePayload s.writebuf txdata len pre) (u32 (pre + len))) 0
          (calc_timeout d.MS2ST (u32 (len + pre)) d.i2cp.clock_speed),
        Event.i2cReleaseBus] := by
  unfold i2c_write
  simp only [hmutex, if_true, emit]
  split <;> simp

/-- Events of `wait_op_complete`: one sleep, none when programtime is 0. -/
theorem wait_op_complete_trace {σ : Type} (d : Mtd24aa σ) (s : State σ) :
    (wait_op_complete d s).trace =
      s.trace ++ (if d.cfg.programtime = 0 then []
        else [Event.osalThreadSleep d.cfg.programtime]) := by
  unfold wait_op_complete
  split <;> simp_all [emit]

/-- Events of a `bus_write` that passes its two checks, with the arguments of the
transaction, on a build with bus locking. -/
theorem bus_write_trace {σ : Type} (d : Mtd24aa σ) (txdata : Option Buf)
    (len offset : Nat) (s : State σ)
    (hmutex : d.build.I2C_USE_MUTUAL_EXCLUSION = true)
    (hbuf : len ≤ u32 (d.writebuf_size + W32 - d.cfg.addr_len))
    (hin : u32 (offset + len) ≤ d.cfg.capacity) :
    (bus_write d txdata len offset s).1.trace =
      s.trace ++ ([Event.acquire, Event.i2cAcquireBus,
          Event.i2cMasterTransmitTimeout
            (d.addr ||| addrSuffix (store32 d.build.bigEndian s.writebuf offset) d.cfg.addr_len)
            (bytes (stagePayload (store32 d.build.bigEndian s.writebuf offset) txdata len
              d.cfg.addr_len) (u32 (d.cfg.addr_len + len))) 0
            (calc_timeout d.MS2ST (u32 (len + d.cfg.addr_len)) d.i2cp.clock_speed),
          Event.i2cReleaseBus] ++
        (if d.cfg.programtime = 0 then [] else [Event.osalThreadSleep d.cfg.programtime]) ++
        [Event.release]) := by
  unfold bus_write
  simp only [ge_iff_le, hbuf, hin, not_true_eq_false, if_false]
  have htr : ∀ (c : Prop) [Decidable c] (a b : State σ) (x y : Outcome Nat),
      (if c then (a, x) else (a, y)).1.trace = a.trace := by
    intro c _ a b x y; split <;> rfl
  rw [htr _ _ s]
  simp only [emit, wait_op_complete_trace, i2c_write_trace d _ _ _ _ hmutex]
  simp

/-- Events of `i2c_write` on every build: the transmit transaction, inside the
bus acquire and release when the build has them. -/
theorem i2c_write_events {σ : Type} (d : Mtd24aa σ) (txdata : Option Buf)
    (len pre : Nat) (s : State σ) :
    (i2c_write d txdata len pre s).1.trace =
      s.trace ++ ((if d.build.I2C_USE_MUTUAL_EXCLUSION = true then [Event.i2cAcquireBus] else []) ++
        [Event.i2cMasterTransmitTimeout (d.addr ||| addrSuffix s.writebuf pre)
          (bytes (stagePayload s.writebuf txdata len pre) (u32 (pre + len))) 0
          (calc_timeout d.MS2ST (u32 (len + pre)) d.i2cp.clock_speed)] ++
        (if d.build.I2C_USE_MUTUAL_EXCLUSION = true then [Event.i2cReleaseBus] else [])) := by
  unfold i2c_write
  cases hm : d.build.I2C_USE_MUTUAL_EXCLUSION <;>
    simp only [emit, Bool.false_eq_true, if_false, if_true] <;>
    split_ifs <;> simp

/-- Events of a `bus_write` that passes its two checks, on every build, with the
arguments of the transaction. -/
theorem bus_write_events {σ : Type} (d : Mtd24aa σ) (txdata : Option Buf)
    (len offset : Nat) (s : State σ)
    (hbuf : len ≤ u32 (d.writebuf_size + W32 - d.cfg.addr_len))
    (hin : u32 (offset + len) ≤ d.cfg.capacity) :
    (bus_write d txdata len offset s).1.trace =
      s.trace ++ ([Event.acquire] ++
        (if d.build.I2C_USE_MUTUAL_EXCLUSION = true then [Event.i2cAcquireBus] else []) ++
        [Event.i2cMasterTransmitTimeout
          (d.addr ||| addrSuffix (store32 d.build.bigEndian s.writebuf offset) d.cfg.addr_len)
          (bytes (stagePayload (store32 d.build.bigEndian s.writebuf offset) txdata len
            d.cfg.addr_len) (u32 (d.cfg.addr_len + len))) 0
          (calc_timeout d.MS2ST (u32 (len + d.cfg.addr_len)) d.i2cp.clock_speed)] ++
        (if d.build.I2C_USE_MUTUAL_EXCLUSION = true then [Event.i2cReleaseBus] else []) ++
        (if d.cfg.programtime = 0 then [] else [Event.osalThreadSleep d.cfg.programtime]) ++
        [Event.release]) := by
  have hw := i2c_write_events d txdata len d.cfg.addr_len
    { writebuf := store32 d.build.bigEndian s.writebuf offset, i2cflags := s.i2cflags,
      bus := s.bus, trace := s.trace ++ [Event.acquire] }
  unfold bus_write
  simp only [ge_iff_le, hbuf, hin, not_true_eq_false, if_false, emit]
  split_ifs <;> simp only [wait_op_complete_trace, hw] <;> simp [*]

/-- C10, as stated, fails on a build without I2C_USE_MUTUAL_EXCLUSION: the bus
acquire and release are compiled out and a two-byte write at offset 0 produces
four events, driver acquire, transmit, sleep, driver release. -/
theorem bus_write_without_bus_lock :
    (bus_write (stubDriver { stm32f1 with I2C_USE_MUTUAL_EXCLUSION := false } 1 256 9 5 okReply)
        (some (ofList [65, 66])) 2 0 (State.init ())).2 = .returned 2 ∧
    (bus_write (stubDriver { stm32f1 with I2C_USE_MUTUAL_EXCLUSION := false } 1 256 9 5 okReply)
        (some (ofList [65, 66])) 2 0 (State.init ())).1.trace =
      [.acquire, .i2cMasterTransmitTimeout 80 [0, 65, 66] 0 10, .osalThreadSleep 5,
        .release] := by
  decide

/-- C10, amended: every bus_write that passes its two checks appends to the trace
exactly driver acquire, bus acquire (only on a build with
I2C_USE_MUTUAL_EXCLUSION), one transmit transaction without receive phase, bus
release (only on such a build), the sleep of cfg.programtime (left out only when
programtime is 0) and driver release, whatever status the transaction reports:
the wait comes after the transaction and before the driver release, and driver
acquire and release are issued once each. -/
theorem bus_write_event_sequence {σ : Type} (d : Mtd24aa σ) (txdata : Option Buf)
    (len offset : Nat) (s : State σ)
    (hbuf : len ≤ u32 (d.writebuf_size + W32 - d.cfg.addr_len))
    (hin : u32 (offset + len) ≤ d.cfg.capacity) :
    ∃ addr txbuf tmo,
      (bus_write d txdata len offset s).1.trace =
        s.trace ++ ([Event.acquire] ++
          (if d.build.I2C_USE_MUTUAL_EXCLUSION = true then [Event.i2cAcquireBus] else []) ++
          [Event.i2cMasterTransmitTimeout addr txbuf 0 tmo] ++
          (if d.build.I2C_USE_MUTUAL_EXCLUSION = true then [Event.i2cReleaseBus] else []) ++
          (if d.cfg.programtime = 0 then [] else [Event.osalThreadSleep d.cfg.programtime]) ++
          [Event.release]) :=
  ⟨_, _, _, bus_write_events d txdata len offset s hbuf hin⟩

/-- Instance of the amended C10: a two-byte write at offset 0 on a build with bus
locking and a bus that runs into its deadline still sleeps for the write cycle
between the bus release and the driver release. -/
theorem bus_write_event_sequence_witness :
    ∃ addr txbuf tmo,
      (bus_write (stubDriver stm32f1 1 256 9 5 timeoutReply) (some (ofList [65, 66])) 2 0
          (State.init ())).1.trace =
        (State.init ()).trace ++ ([Event.acquire] ++
          (if (stubDriver stm32f1 1 256 9 5 timeoutReply).build.I2C_USE_MUTUAL_EXCLUSION = true
            then [Event.i2cAcquireBus] else []) ++
          [Event.i2cMasterTransmitTimeout addr txbuf 0 tmo] ++
          (if (stubDriver stm32f1 1 256 9 5 timeoutReply).build.I2C_USE_MUTUAL_EXCLUSION = true
            then [Event.i2cReleaseBus] else []) ++
          (if (stubDriver stm32f1 1 256 9 5 timeoutReply).cfg.programtime = 0 then []
            else [Event.osalThreadSleep
              (stubDriver stm32f1 1 256 9 5 timeoutReply).cfg.programtime]) ++
          [Event.release]) :=
  bus_write_event_sequence (stubDriver stm32f1 1 256 9 5 timeoutReply)
    (some (ofList [65, 66])) 2 0 (State.init ()) (by decide) (by decide)

/-! ## Further properties of the checks and of the read path -/

/-- Whenever the 32-bit sum offset + length does not wrap and exceeds the
capacity, bus_write and bus_read end on the fatal path before the driver acquire:
the state, and with it the trace, is returned untouched. -/
theorem out_of_bounds_halts {σ : Type} (d : Mtd24aa σ) (txdata : Option Buf) (rxbuf : Buf)
    (len offset : Nat) (s : State σ)
    (hover : d.cfg.capacity < offset + len) (hfit : offset + len < W32) :
    bus_write d txdata len offset s = (s, .halted) ∧
    bus_read d rxbuf len offset s = (s, rxbuf, .halted) := by
  have h : ¬ (u32 (offset + len) ≤ d.cfg.capacity) := by
    unfold u32
    rw [Nat.mod_eq_of_lt hfit]
    exact Nat.not_le.mpr hover
  constructor
  · unfold bus_write
    by_cases h1 : u32 (d.writebuf_size + W32 - d.cfg.addr_len) ≥ len
    · simp [h1, h]
    · simp [h1]
  · unfold bus_read
    simp [h]

/-- Instance: a read of 2 bytes at offset 255 of a 256-byte device. -/
theorem out_of_bounds_halts_witness :
    (bus_read (dev256 stm32f1) (ofList [0, 0]) 2 255 (State.init erased)).2.2 = .halted :=
  congrArg (fun r => r.2.2)
    (out_of_bounds_halts (dev256 stm32f1) none (ofList [0, 0]) 2 255 (State.init erased)
      (by decide) (by decide)).2

/-- Without the erratum flag (and with bus locking) a non-empty `i2c_read`
returns, issues one transaction with the scratch buffer as it found it, and
leaves the scratch buffer alone. -/
theorem i2c_read_plain {σ : Type} (d : Mtd24aa σ) (rxbuf : Buf) (len pre : Nat)
    (s : State σ) (herr : d.build.STM32F1XX_I2C = false)
    (hmutex : d.build.I2C_USE_MUTUAL_EXCLUSION = true) (hlen : len ≠ 0) :
    (i2c_read d rxbuf len pre s).1.trace =
      s.trace ++ [Event.i2cAcquireBus,
        Event.i2cMasterTransmitTimeout (d.addr ||| addrSuffix s.writebuf pre)
          (bytes s.writebuf pre) len
          (calc_timeout d.MS2ST (u32 (len + pre)) d.i2cp.clock_speed),
        Event.i2cReleaseBus] ∧
    ∃ st, (i2c_read d rxbuf len pre s).2.2 = .returned st := by
  unfold i2c_read
  simp only [herr, hmutex, Bool.false_and, if_true, emit, hlen, if_false, Bool.false_eq_true]
  constructor
  · split <;> simp
  · exact ⟨_, rfl⟩

/-- Without the erratum flag (and with bus locking) every bus_read that passes
its checks issues exactly one bus transaction: the preamble is the one addr2buf
wrote, unmodified, and the receive length is the caller's length. -/
theorem plain_read_trace {σ : Type} (d : Mtd24aa σ) (rxbuf : Buf) (len offset : Nat)
    (s : State σ) (herr : d.build.STM32F1XX_I2C = false)
    (hmutex : d.build.I2C_USE_MUTUAL_EXCLUSION = true)
    (hin : u32 (offset + len) ≤ d.cfg.capacity) (hwb : d.cfg.addr_len ≤ d.writebuf_size)
    (hlen : len ≠ 0) :
    (bus_read d rxbuf len offset s).1.trace =
      s.trace ++ [Event.acquire, Event.i2cAcquireBus,
        Event.i2cMasterTransmitTimeout
          (d.addr ||| addrSuffix (addr2buf s.writebuf offset d.cfg.addr_len) d.cfg.addr_len)
          (bytes (addr2buf s.writebuf offset d.cfg.addr_len) d.cfg.addr_len) len
          (calc_timeout d.MS2ST (u32 (len + d.cfg.addr_len)) d.i2cp.clock_speed),
        Event.i2cReleaseBus, Event.release] := by
  obtain ⟨htr, st, hst⟩ := i2c_read_plain d rxbuf len d.cfg.addr_len
    { writebuf := addr2buf s.writebuf offset d.cfg.addr_len, i2cflags := s.i2cflags,
      bus := s.bus, trace := s.trace ++ [Event.acquire] }
    herr hmutex hlen
  unfold bus_read
  simp only [ge_iff_le, hin, hwb, not_true_eq_false, if_false, emit]
  rw [hst]
  simp only []
  split <;> simp [htr]

/-- Instance: the one-byte read of the last byte of a 256-byte device. -/
theorem plain_read_trace_witness :
    (bus_read (dev256 plainBuild) (ofList [0]) 1 255 (State.init erased)).1.trace =
      [Event.acquire, Event.i2cAcquireBus, Event.i2cMasterTransmitTimeout 80 [255] 1 10,
        Event.i2cReleaseBus, Event.release] :=
  plain_read_trace (dev256 plainBuild) (ofList [0]) 1 255 (State.init erased) rfl rfl
    (by decide) (by decide) (by decide)

/-! ## Round trip for a one-byte address width -/

/-- Byte `i` of the bytes handed to the bus. -/
theorem bytes_getD (buf : Buf) (n i : Nat) :
    (bytes buf n).getD i 0 = if i < n then buf i else 0 := by
  unfold bytes
  by_cases h : i < n
  · simp [List.getD_eq_getElem?_getD, h]
  · have hn : n ≤ i := Nat.le_of_not_lt h
    simp [List.getD_eq_getElem?_getD, h, List.getElem?_eq_none, hn]

/-- Number of bytes handed to the bus. -/
theorem bytes_length (buf : Buf) (n : Nat) : (bytes buf n).length = n := by
  simp [bytes]

/-- The high offset bits folded into the bus-select address 80 come back out. -/
theorem suffix_recovered (h : Nat) (hh : h < 16) : (80 ||| h) ^^^ 80 = h := by
  interval_cases h <;> rfl

/-- What `i2c_write` hands to the bus and gets back, on every build: the status
and the device state are those of the single transaction on the staged buffer. -/
theorem i2c_write_transaction {σ : Type} (d : Mtd24aa σ) (txdata : Option Buf)
    (len pre : Nat) (s : State σ) :
    (i2c_write d txdata len pre s).2 =
      (d.i2cp.transmit s.bus (d.addr ||| addrSuffix s.writebuf pre)
        (bytes (stagePayload s.writebuf txdata len pre) (u32 (pre + len))) 0
        (calc_timeout d.MS2ST (u32 (len + pre)) d.i2cp.clock_speed)).1.status ∧
    (i2c_write d txdata len pre s).1.bus =
      (d.i2cp.transmit s.bus (d.addr ||| addrSuffix s.writebuf pre)
        (bytes (stagePayload s.writebuf txdata len pre) (u32 (pre + len))) 0
        (calc_timeout d.MS2ST (u32 (len + pre)) d.i2cp.clock_speed)).2 := by
  unfold i2c_write
  cases hm : d.build.I2C_USE_MUTUAL_EXCLUSION <;>
    simp only [emit, Bool.false_eq_true, if_false, if_true] <;>
    refine ⟨trivial, ?_⟩ <;> split_ifs <;> rfl

/-- `wait_op_complete` only adds to the trace. -/
theorem wait_op_complete_bus {σ : Type} (d : Mtd24aa σ) (s : State σ) :
    (wait_op_complete d s).bus = s.bus := by
  unfold wait_op_complete
  split <;> rfl

/-- Result and device state of a `bus_write` that passes its checks, on every
build: those of the single transaction on the staged scratch buffer. -/
theorem bus_write_transaction {σ : Type} (d : Mtd24aa σ) (txdata : Option Buf)
    (len offset : Nat) (s : State σ)
    (hbuf : len ≤ u32 (d.writebuf_size + W32 - d.cfg.addr_len))
    (hin : u32 (offset + len) ≤ d.cfg.capacity) :
    (bus_write d txdata len offset s).2 =
      .returned (if (d.i2cp.transmit s.bus
          (d.addr ||| addrSuffix (store32 d.build.bigEndian s.writebuf offset) d.cfg.addr_len)
          (bytes (stagePayload (store32 d.build.bigEndian s.writebuf offset) txdata len
            d.cfg.addr_len) (u32 (d.cfg.addr_len + len))) 0
          (calc_timeout d.MS2ST (u32 (len + d.cfg.addr_len)) d.i2cp.clock_speed)).1.status
            = MSG_OK then len else 0) ∧
    (bus_write d txdata len offset s).1.bus =
      (d.i2cp.transmit s.bus
        (d.addr ||| addrSuffix (store32 d.build.bigEndian s.writebuf offset) d.cfg.addr_len)
        (bytes (stagePayload (store32 d.build.bigEndian s.writebuf offset) txdata len
          d.cfg.addr_len) (u32 (d.cfg.addr_len + len))) 0
        (calc_timeout d.MS2ST (u32 (len + d.cfg.addr_len)) d.i2cp.clock_speed)).2 := by
  obtain ⟨hst, hbus⟩ := i2c_write_transaction d txdata len d.cfg.addr_len
    { writebuf := store32 d.build.bigEndian s.writebuf offset, i2cflags := s.i2cflags,
      bus := s.bus, trace := s.trace ++ [Event.acquire] }
  unfold bus_write
  simp only [ge_iff_le, hbuf, hin, not_true_eq_false, if_false, emit, hst]
  constructor
  · split_ifs <;> rfl
  · split_ifs <;> simp only [wait_op_complete_bus, hbus]

/-- The payload copy leaves the preamble bytes alone. -/
theorem stagePayload_preamble (buf : Buf) (txdata : Option Buf) (len pre i : Nat)
    (hi : i < pre) : stagePayload buf txdata len pre i = buf i := by
  unfold stagePayload
  cases txdata with
  | none => rfl
  | some src =>
    by_cases hl : len = 0
    · simp [hl]
    · have hn : ¬ (pre ≤ i ∧ i < pre + len) := by omega
      simp [hl, memcpy, hn]

/-- The payload copy places byte `k` of the payload right behind the preamble. -/
theorem stagePayload_payload (buf : Buf) (src : Buf) (len pre k : Nat) (hk : k < len) :
    stagePayload buf (some src) len pre (pre + k) = src k := by
  unfold stagePayload
  have hl : len ≠ 0 := by omega
  simp [hl, memcpy, hk]

/-- First byte of a 32-bit little-endian store. -/
theorem store32_le_zero (buf : Buf) (v : Nat) : store32 false buf v 0 = v % 256 := by
  simp [store32, setByte, u8]

/-- Effect of an accepted `bus_write` on the fault-free device with a one-byte
address (little-endian target, at most 2048 bytes): it returns the length and the
payload is stored from `offset` on. -/
theorem bus_write_one_byte (b : Build) (capacity wb pt : Nat) (data : Buf)
    (len offset : Nat) (s : State Buf) (hle : b.bigEndian = false)
    (hcap : capacity ≤ 2048) (hin : offset + len ≤ capacity)
    (hbuf : len + 1 ≤ wb) (hwb : wb < W32) :
    (bus_write (eepromDriver b 1 capacity wb pt) (some data) len offset s).2 = .returned len ∧
    (bus_write (eepromDriver b 1 capacity wb pt) (some data) len offset s).1.bus =
      fun j => if offset ≤ j ∧ j < offset + len then data (j - offset) else s.bus j := by
  have h1 : len ≤ u32 (wb + W32 - 1) := by unfold u32 W32 at *; omega
  have h2 : u32 (offset + len) ≤ capacity := le_trans (Nat.mod_le _ _) hin
  have h3 : u32 (1 + len) = 1 + len := by unfold W32 at hwb; unfold u32 W32; omega
  have hsuf : addrSuffix (store32 false s.writebuf offset) 1 = offset / 256 := by
    simp [addrSuffix, store32, setByte, u8]
    omega
  have hrec : (80 ||| offset / 256) ^^^ 80 = offset / 256 := suffix_recovered _ (by omega)
  obtain ⟨hres, hbus⟩ := bus_write_transaction (eepromDriver b 1 capacity wb pt) (some data)
    len offset s h1 h2
  rw [hres, hbus]
  simp only [eepromDriver, eepromBus, hle, hsuf, h3, eepromTransmit, eepromAddress, hrec,
    bytes_getD, bytes_length, if_true]
  refine ⟨trivial, ?_⟩
  funext j
  have hpos : 0 < 1 + len := by omega
  simp only [hpos, if_true, stagePayload_preamble _ _ _ 1 0 Nat.one_pos, store32_le_zero]
  have haddr : 256 * (offset / 256) + offset % 256 = offset := by omega
  rw [haddr]
  by_cases hj : offset ≤ j ∧ j < offset + len
  · have hj2 : offset ≤ j ∧ j < offset + (1 + len - 1) := by omega
    have hj3 : 1 + (j - offset) < 1 + len := by omega
    have hk : j - offset < len := by omega
    simp only [hj, hj2, hj3, and_self, if_true, stagePayload_payload _ _ _ 1 _ hk]
  · have hj2 : ¬ (offset ≤ j ∧ j < offset + (1 + len - 1)) := by omega
    simp only [hj, hj2, if_false]

/-- What a non-empty `i2c_read` hands to the bus and gets back, on every build:
one transaction on the scratch buffer as the erratum block left it, and the
received bytes, moved down by one when the block set `rewind`. -/
theorem i2c_read_transaction {σ : Type} (d : Mtd24aa σ) (rxbuf : Buf) (len pre : Nat)
    (s : State σ) (hlen : len ≠ 0) :
    (i2c_read d rxbuf len pre s).2.2 = .returned
      (d.i2cp.transmit s.bus (d.addr ||| addrSuffix (readBuf d len s.writebuf) pre)
        (bytes (readBuf d len s.writebuf) pre) (readLen d len)
        (calc_timeout d.MS2ST (u32 (readLen d len + pre)) d.i2cp.clock_speed)).1.status ∧
    (i2c_read d rxbuf len pre s).2.1 =
      (if readRewind d len s.writebuf then
        copyByte (receive rxbuf (readLen d len)
          (d.i2cp.transmit s.bus (d.addr ||| addrSuffix (readBuf d len s.writebuf) pre)
            (bytes (readBuf d len s.writebuf) pre) (readLen d len)
            (calc_timeout d.MS2ST (u32 (readLen d len + pre)) d.i2cp.clock_speed)).1.rx) 0 1
      else receive rxbuf (readLen d len)
          (d.i2cp.transmit s.bus (d.addr ||| addrSuffix (readBuf d len s.writebuf) pre)
            (bytes (readBuf d len s.writebuf) pre) (readLen d len)
            (calc_timeout d.MS2ST (u32 (readLen d len + pre)) d.i2cp.clock_speed)).1.rx) := by
  have hlen2 : (if (d.build.STM32F1XX_I2C && decide (1 = len)) = true then 2 else len) ≠ 0 := by
    split <;> omega
  unfold i2c_read readBuf readLen readRewind
  cases hm : d.build.I2C_USE_MUTUAL_EXCLUSION <;>
    simp only [emit, hlen2, Bool.false_eq_true, if_false, if_true] <;>
    exact ⟨trivial, trivial⟩

/-- Result of a non-empty `bus_read` that passes its checks, on every build:
status and received bytes of the single transaction on the encoded address. -/
theorem bus_read_transaction {σ : Type} (d : Mtd24aa σ) (rxbuf : Buf) (len offset : Nat)
    (s : State σ) (hin : u32 (offset + len) ≤ d.cfg.capacity)
    (hwb : d.cfg.addr_len ≤ d.writebuf_size) (hlen : len ≠ 0) :
    bus_read d rxbuf len offset s =
      ((bus_read d rxbuf len offset s).1,
        (i2c_read d rxbuf len d.cfg.addr_len
          { writebuf := addr2buf s.writebuf offset d.cfg.addr_len, i2cflags := s.i2cflags,
            bus := s.bus, trace := s.trace ++ [Event.acquire] }).2.1,
        .returned (if MSG_OK = (d.i2cp.transmit s.bus
            (d.addr ||| addrSuffix
              (readBuf d len (addr2buf s.writebuf offset d.cfg.addr_len)) d.cfg.addr_len)
            (bytes (readBuf d len (addr2buf s.writebuf offset d.cfg.addr_len)) d.cfg.addr_len)
            (readLen d len)
            (calc_timeout d.MS2ST (u32 (readLen d len + d.cfg.addr_len))
              d.i2cp.clock_speed)).1.status then len else 0)) := by
  obtain ⟨hst, -⟩ := i2c_read_transaction d rxbuf len d.cfg.addr_len
    { writebuf := addr2buf s.writebuf offset d.cfg.addr_len, i2cflags := s.i2cflags,
      bus := s.bus, trace := s.trace ++ [Event.acquire] } hlen
  unfold bus_read
  simp only [ge_iff_le, hin, hwb, not_true_eq_false, if_false, emit, hst]
  split_ifs <;> rfl

/-- Answer of the fault-free device to a transaction with a receive phase. -/
theorem eepromTransmit_read (addr_len base : Nat) (mem : Buf) (busaddr : Nat)
    (txbuf : List Nat) (rxbytes tmo : Nat) (hrx : rxbytes ≠ 0) :
    eepromTransmit addr_len base mem busaddr txbuf rxbytes tmo =
      (⟨MSG_OK, fun i => mem (eepromAddress addr_len base busaddr txbuf + i), 0⟩, mem) := by
  simp [eepromTransmit, hrx]

/-- Address the fault-free one-byte-address device selects for a scratch buffer
whose byte 1 holds fewer than four high bits. -/
theorem eepromAddress_one (buf : Buf) (hhi : buf 1 < 16) :
    eepromAddress 1 80 (80 ||| addrSuffix buf 1) (bytes buf 1) = 256 * buf 1 + buf 0 := by
  have hu : u8 (buf 1) = buf 1 := by unfold u8; omega
  simp only [eepromAddress, addrSuffix, if_true, hu, suffix_recovered _ hhi, bytes_getD]
  simp

/-- Effect of an accepted `bus_read` on the fault-free device with a one-byte
address (little-endian target, at most 2048 bytes, last address not a multiple of
256): it returns the length and delivers the stored bytes from `offset` on, with
or without the erratum widening. -/
theorem bus_read_one_byte (b : Build) (capacity wb pt : Nat) (rx0 : Buf)
    (len offset : Nat) (s : State Buf) (hle : b.bigEndian = false)
    (hcap : capacity ≤ 2048) (hlast : capacity % 256 ≠ 1) (hin : offset + len ≤ capacity)
    (hlen : 0 < len) (hwb : 1 ≤ wb) :
    (bus_read (eepromDriver b 1 capacity wb pt) rx0 len offset s).2.2 = .returned len ∧
    ∀ i, i < len →
      (bus_read (eepromDriver b 1 capacity wb pt) rx0 len offset s).2.1 i
        = s.bus (offset + i) := by
  have h2 : u32 (offset + len) ≤ capacity := le_trans (Nat.mod_le _ _) hin
  have hne : len ≠ 0 := by omega
  have hb0 : addr2buf s.writebuf offset 1 0 = offset % 256 := by
    simp [addr2buf, setByte, u8]
  have hb1 : addr2buf s.writebuf offset 1 1 = offset / 256 := by
    simp [addr2buf, setByte, u8]
    omega
  have hl16 : load16 false (addr2buf s.writebuf offset 1) = offset := by
    simp only [load16, hb0, hb1, u8]
    simp
    omega
  have hcapm : u32 (capacity + W32 - 1) = capacity - 1 := by
    unfold u32 W32
    omega
  rw [bus_read_transaction (eepromDriver b 1 capacity wb pt) rx0 len offset s h2 hwb hne]
  simp only []
  rw [(i2c_read_transaction (eepromDriver b 1 capacity wb pt) rx0 len _ _ hne).2]
  simp only [readRewind, readLen, readBuf, eepromDriver, eepromBus, hle, hl16, hcapm]
  have hrl : (if (b.STM32F1XX_I2C && decide (1 = len)) = true then 2 else len) ≠ 0 := by
    split <;> omega
  have hrl2 : len ≤ (if (b.STM32F1XX_I2C && decide (1 = len)) = true then 2 else len) := by
    split
    · rename_i h
      have h1 : 1 = len := of_decide_eq_true ((Bool.and_eq_true _ _).mp h).2
      omega
    · exact le_refl _
  simp only [eepromTransmit_read _ _ _ _ _ _ _ hrl, if_true]
  refine ⟨trivial, ?_⟩
  intro i hi
  by_cases hr : (b.STM32F1XX_I2C && decide (1 = len) && decide (offset = capacity - 1)) = true
  · simp only [hr, if_true, eq_self_iff_true]
    have hr2 : (b.STM32F1XX_I2C && decide (1 = len)) = true ∧ offset = capacity - 1 := by
      simpa using hr
    have hl1 : len = 1 :=
      (of_decide_eq_true ((Bool.and_eq_true _ _).mp hr2.1).2).symm
    have hi0 : i = 0 := by omega
    have hoff : offset = capacity - 1 := hr2.2
    have hlow : offset % 256 ≠ 0 := by omega
    have hn0 : setByte (addr2buf s.writebuf offset 1) 0 (addr2buf s.writebuf offset 1 0 + 255) 0
        = offset % 256 - 1 := by
      simp only [setByte, if_true, hb0, u8]
      omega
    have hn1 : setByte (addr2buf s.writebuf offset 1) 0 (addr2buf s.writebuf offset 1 0 + 255) 1
        = offset / 256 := by
      simp only [setByte, hb1]
      simp
    have hhi : setByte (addr2buf s.writebuf offset 1) 0 (addr2buf s.writebuf offset 1 0 + 255) 1
        < 16 := by
      rw [hn1]; omega
    rw [eepromAddress_one _ hhi, hn0, hn1, hi0]
    simp only [hr2.1, if_true, copyByte, receive, eq_self_iff_true]
    rw [if_pos (by decide)]
    have ha : 256 * (offset / 256) + (offset % 256 - 1) + 1 = offset + 0 := by omega
    rw [ha]
  · simp only [hr, if_false, Bool.false_eq_true]
    have hhi : addr2buf s.writebuf offset 1 1 < 16 := by
      rw [hb1]; omega
    rw [eepromAddress_one _ hhi, hb0, hb1]
    have hi2 : i < (if (b.STM32F1XX_I2C && decide (1 = len)) = true then 2 else len) :=
      Nat.lt_of_lt_of_le hi hrl2
    simp only [receive, hi2, if_true]
    have ha : 256 * (offset / 256) + offset % 256 + i = offset + i := by omega
    rw [ha]

/-- Round trip for a one-byte address width: on the little-endian target and the
fault-free device with base select address 80, capacity at most 2048 and not of
the form 256 k + 1, every bus_write of 1 .. writebuf_size - 1 bytes within the
capacity followed by a bus_read of the same range returns the length both
times and delivers the bytes written, with or without the erratum flag. -/
theorem round_trip_one_byte_address (b : Build) (capacity wb pt : Nat) (data rx0 : Buf)
    (len offset : Nat) (s : State Buf) (hle : b.bigEndian = false)
    (hcap : capacity ≤ 2048) (hlast : capacity % 256 ≠ 1) (hin : offset + len ≤ capacity)
    (hlen : 0 < len) (hbuf : len + 1 ≤ wb) (hwb : wb < W32) :
    (bus_write (eepromDriver b 1 capacity wb pt) (some data) len offset s).2 = .returned len ∧
    (bus_read (eepromDriver b 1 capacity wb pt) rx0 len offset
      (bus_write (eepromDriver b 1 capacity wb pt) (some data) len offset s).1).2.2
        = .returned len ∧
    ∀ i, i < len →
      (bus_read (eepromDriver b 1 capacity wb pt) rx0 len offset
        (bus_write (eepromDriver b 1 capacity wb pt) (some data) len offset s).1).2.1 i
          = data i := by
  obtain ⟨hw, hmem⟩ := bus_write_one_byte b capacity wb pt data len offset s hle hcap hin
    hbuf hwb
  obtain ⟨hr, hrx⟩ := bus_read_one_byte b capacity wb pt rx0 len offset
    (bus_write (eepromDriver b 1 capacity wb pt) (some data) len offset s).1 hle hcap hlast
    hin hlen (by omega)
  refine ⟨hw, hr, ?_⟩
  intro i hi
  rw [hrx i hi, hmem]
  have hrange : offset ≤ offset + i ∧ offset + i < offset + len := by omega
  simp only [hrange, and_self, if_true, Nat.add_sub_cancel_left]

/-- Instance: the spec's scenario, capacity 256, address width 1, page size 8:
write("AB", 2, 0) then read(2, 0) on the erratum build. -/
theorem round_trip_one_byte_address_witness :
    (bus_write (dev256 stm32f1) (some (ofList [65, 66])) 2 0 (State.init erased)).2
      = .returned 2 ∧
    (bus_read (dev256 stm32f1) (ofList [0, 0]) 2 0
      (bus_write (dev256 stm32f1) (some (ofList [65, 66])) 2 0 (State.init erased)).1).2.2
        = .returned 2 ∧
    ∀ i, i < 2 →
      (bus_read (dev256 stm32f1) (ofList [0, 0]) 2 0
        (bus_write (dev256 stm32f1) (some (ofList [65, 66])) 2 0 (State.init erased)).1).2.1 i
          = ofList [65, 66] i :=
  round_trip_one_byte_address stm32f1 256 9 5 (ofList [65, 66]) (ofList [0, 0]) 2 0
    (State.init erased) rfl (by decide) (by decide) (by decide) (by decide) (by decide)
    (by decide)

/-- Erratum read of the last byte for a one-byte address width: with the erratum
flag set, on the little-endian target and the fault-free device (capacity between
1 and 2048 and not of the form 256 k + 1), bus_read(rx, 1, capacity - 1) returns
1 and leaves in rx[0] the device's byte at address capacity - 1. -/
theorem erratum_read_last_byte_one_byte_address (b : Build) (capacity wb pt : Nat)
    (rx0 : Buf) (s : State Buf) (hle : b.bigEndian = false)
    (_herr : b.STM32F1XX_I2C = true) (hpos : 0 < capacity) (hcap : capacity ≤ 2048)
    (hlast : capacity % 256 ≠ 1) (hwb : 1 ≤ wb) :
    (bus_read (eepromDriver b 1 capacity wb pt) rx0 1 (capacity - 1) s).2.2 = .returned 1 ∧
    (bus_read (eepromDriver b 1 capacity wb pt) rx0 1 (capacity - 1) s).2.1 0
      = s.bus (capacity - 1) := by
  obtain ⟨hr, hrx⟩ := bus_read_one_byte b capacity wb pt rx0 1 (capacity - 1) s hle hcap
    hlast (by omega) (by decide) hwb
  exact ⟨hr, hrx 0 (by decide)⟩

/-- Instance: the last byte of the 256-byte device on the erratum build. -/
theorem erratum_read_last_byte_one_byte_address_witness :
    (bus_read (dev256 stm32f1) (ofList [0, 0]) 1 (256 - 1) (State.init erased)).2.1 0
      = (State.init erased).bus (256 - 1) :=
  (erratum_read_last_byte_one_byte_address stm32f1 256 9 5 (ofList [0, 0]) (State.init erased)
    rfl rfl (by decide) (by decide) (by decide) (by decide)).2

/-! ## Claims on the scratch buffer, the deadline, the select address and the flags -/

/-- Transactions of a trace put together from two parts. -/
theorem transactions_append (l1 l2 : List Event) :
    transactions (l1 ++ l2) = transactions l1 ++ transactions l2 := by
  induction l1 with
  | nil => rfl
  | cons e es ih => cases e <;> simp [transactions, ih]

/-- C11 fails on the code. With a 3-byte scratch buffer and address width 1 a
2-byte write passes the check (3 - 1 >= 2, and 1 + 2 <= 3) and returns 2, yet the
4-byte offset store changes scratch index 3, outside the buffer. With a 0-byte
scratch buffer the unsigned difference 0 - 1 wraps, the check passes, and the
payload is copied to indices 1 and 2 although 1 + 2 > 0. -/
theorem scratch_check_misses :
    (bus_write (stubDriver stm32f1 1 256 3 5 okReply) (some (ofList [65, 66])) 2 0
        markedState).2 = .returned 2 ∧
    1 + 2 ≤ (stubDriver stm32f1 1 256 3 5 okReply).writebuf_size ∧
    (stubDriver stm32f1 1 256 3 5 okReply).writebuf_size ≤ 3 ∧
    markedState.writebuf 3 = 170 ∧
    (bus_write (stubDriver stm32f1 1 256 3 5 okReply) (some (ofList [65, 66])) 2 0
        markedState).1.writebuf 3 = 0 ∧
    (bus_write (stubDriver stm32f1 1 256 0 5 okReply) (some (ofList [65, 66])) 2 0
        markedState).2 = .returned 2 ∧
    ¬ (1 + 2 ≤ (stubDriver stm32f1 1 256 0 5 okReply).writebuf_size) ∧
    (bus_write (stubDriver stm32f1 1 256 0 5 okReply) (some (ofList [65, 66])) 2 0
        markedState).1.writebuf 1 = 65 ∧
    (bus_write (stubDriver stm32f1 1 256 0 5 okReply) (some (ofList [65, 66])) 2 0
        markedState).1.writebuf 2 = 66 := by
  decide

/-- C12, as stated, fails: for 9 bytes at 100 kHz the stated formula
9 * 10 * 1000 / 100000 + 10 gives 10 ms, calc_timeout gives 11 ms, because it
scales bytes + 1. -/
theorem calc_timeout_counts_one_more :
    0 < 100000 ∧ 9 * (10 * 1000) / 100000 + 10 = 10 ∧ calc_timeout_ms 9 100000 = 11 ∧
    calc_timeout_ms 9 100000 ≠ 9 * (10 * 1000) / 100000 + 10 := by
  decide

/-- The one transaction of `i2c_write`, on every build, with its arguments. -/
theorem i2c_write_transactions {σ : Type} (d : Mtd24aa σ) (txdata : Option Buf)
    (len pre : Nat) (s : State σ) :
    transactions (i2c_write d txdata len pre s).1.trace =
      transactions s.trace ++
        [(d.addr ||| addrSuffix s.writebuf pre,
          bytes (stagePayload s.writebuf txdata len pre) (u32 (pre + len)), 0,
          calc_timeout d.MS2ST (u32 (len + pre)) d.i2cp.clock_speed)] := by
  unfold i2c_write
  cases hm : d.build.I2C_USE_MUTUAL_EXCLUSION <;>
    simp only [emit, Bool.false_eq_true, if_false, if_true] <;>
    split_ifs <;> simp [transactions_append, transactions]

/-- The one transaction of a non-empty `i2c_read`, on every build, with its
arguments: receive length and deadline are those behind the erratum block. -/
theorem i2c_read_transactions {σ : Type} (d : Mtd24aa σ) (rxbuf : Buf) (len pre : Nat)
    (s : State σ) (hlen : len ≠ 0) :
    transactions (i2c_read d rxbuf len pre s).1.trace =
      transactions s.trace ++
        [(d.addr ||| addrSuffix (readBuf d len s.writebuf) pre,
          bytes (readBuf d len s.writebuf) pre, readLen d len,
          calc_timeout d.MS2ST (u32 (readLen d len + pre)) d.i2cp.clock_speed)] := by
  have hlen2 : (if (d.build.STM32F1XX_I2C && decide (1 = len)) = true then 2 else len) ≠ 0 := by
    split <;> omega
  unfold i2c_read readBuf readLen readRewind
  cases hm : d.build.I2C_USE_MUTUAL_EXCLUSION <;>
    simp only [emit, hlen2, Bool.false_eq_true, if_false, if_true] <;>
    split_ifs <;> simp [transactions_append, transactions]

/-- The one transaction of a `bus_write` that passes its checks, on every build. -/
theorem bus_write_transactions {σ : Type} (d : Mtd24aa σ) (txdata : Option Buf)
    (len offset : Nat) (s : State σ)
    (hbuf : len ≤ u32 (d.writebuf_size + W32 - d.cfg.addr_len))
    (hin : u32 (offset + len) ≤ d.cfg.capacity) :
    transactions (bus_write d txdata len offset s).1.trace =
      transactions s.trace ++
        [(d.addr ||| addrSuffix (store32 d.build.bigEndian s.writebuf offset) d.cfg.addr_len,
          bytes (stagePayload (store32 d.build.bigEndian s.writebuf offset) txdata len
            d.cfg.addr_len) (u32 (d.cfg.addr_len + len)), 0,
          calc_timeout d.MS2ST (u32 (len + d.cfg.addr_len)) d.i2cp.clock_speed)] := by
  have hw := i2c_write_transactions d txdata len d.cfg.addr_len
    { writebuf := store32 d.build.bigEndian s.writebuf offset, i2cflags := s.i2cflags,
      bus := s.bus, trace := s.trace ++ [Event.acquire] }
  unfold bus_write
  simp only [ge_iff_le, hbuf, hin, not_true_eq_false, if_false, emit]
  split_ifs <;>
    simp only [wait_op_complete_trace, transactions_append, hw] <;>
    split_ifs <;> simp [transactions]

/-- C12, amended: for every transfer size n <= 429495 (scaled value below 2^32)
and clock > 0, the millisecond value of calc_timeout is (n + 1) * 10 * 1000
integer-divided by the clock, plus the margin of 10: one byte more than the
transfer size is scaled. i2c_write calls it with n = data length + preamble
length; i2c_read calls it with n = receive length + preamble length, where
the receive length is 2 when the erratum block widened a one-byte read. -/
theorem calc_timeout_formula (n clock : Nat) (_hclock : 0 < clock) (hfit : n ≤ 429495) :
    calc_timeout_ms n clock = (n + 1) * (10 * 1000) / clock + 10 ∧
    (∀ {σ : Type} (d : Mtd24aa σ) (txdata : Option Buf) (len pre : Nat) (s : State σ),
      ∃ a tx, transactions (i2c_write d txdata len pre s).1.trace =
        transactions s.trace ++
          [(a, tx, 0, calc_timeout d.MS2ST (u32 (len + pre)) d.i2cp.clock_speed)]) ∧
    (∀ {σ : Type} (d : Mtd24aa σ) (rxbuf : Buf) (len pre : Nat) (s : State σ), len ≠ 0 →
      ∃ a tx, transactions (i2c_read d rxbuf len pre s).1.trace =
        transactions s.trace ++
          [(a, tx, readLen d len,
            calc_timeout d.MS2ST (u32 (readLen d len + pre)) d.i2cp.clock_speed)]) := by
  refine ⟨?_, ?_, ?_⟩
  · rw [calc_timeout_ms_eq, scaled_exact n hfit]
  · intro σ d txdata len pre s
    exact ⟨_, _, i2c_write_transactions d txdata len pre s⟩
  · intro σ d rxbuf len pre s hlen
    exact ⟨_, _, i2c_read_transactions d rxbuf len pre s hlen⟩

/-- Instance of the amended C12: one address byte and one data byte at 100 kHz. -/
theorem calc_timeout_formula_witness :
    calc_timeout_ms 2 100000 = (2 + 1) * (10 * 1000) / 100000 + 10 :=
  (calc_timeout_formula 2 100000 (by decide) (by decide)).1

/-- Byte 1 of the little-endian 32-bit store holds bits 8 .. 15 of the value. -/
theorem addrSuffix_store32_le (buf : Buf) (offset : Nat) :
    addrSuffix (store32 false buf offset) 1 = offset / 256 % 256 := by
  simp [addrSuffix, store32, setByte, u8]

/-- C13: on the little-endian target every bus_write that passes its checks
addresses its transaction to the base address OR-ed with (offset >> 8) & 0xFF
when the address width is 1 (the suffix is read before the payload copy) and to
the unmodified base address when the address width is 2. -/
theorem bus_write_select_address {σ : Type} (d : Mtd24aa σ) (txdata : Option Buf)
    (len offset : Nat) (s : State σ) (hle : d.build.bigEndian = false)
    (hbuf : len ≤ u32 (d.writebuf_size + W32 - d.cfg.addr_len))
    (hin : u32 (offset + len) ≤ d.cfg.capacity) :
    (d.cfg.addr_len = 1 → ∃ tx tmo,
      transactions (bus_write d txdata len offset s).1.trace =
        transactions s.trace ++ [(d.addr ||| (offset / 256 % 256), tx, 0, tmo)]) ∧
    (d.cfg.addr_len = 2 → ∃ tx tmo,
      transactions (bus_write d txdata len offset s).1.trace =
        transactions s.trace ++ [(d.addr, tx, 0, tmo)]) := by
  have h := bus_write_transactions d txdata len offset s hbuf hin
  constructor
  · intro h1
    rw [h1, hle, addrSuffix_store32_le] at h
    exact ⟨_, _, h⟩
  · intro h2
    have hz : addrSuffix (store32 d.build.bigEndian s.writebuf offset) d.cfg.addr_len = 0 := by
      simp [addrSuffix, h2]
    rw [hz, Nat.or_zero] at h
    exact ⟨_, _, h⟩

/-- Instance of C13: a write at offset 0x0305 of a 2048-byte device with one
address byte goes to select address 80 | 3. -/
theorem bus_write_select_address_witness :
    ∃ tx tmo,
      transactions (bus_write (eepromDriver stm32f1 1 2048 17 5) (some (ofList [65, 66])) 2 773
          (State.init erased)).1.trace =
        transactions (State.init erased).trace ++
          [((eepromDriver stm32f1 1 2048 17 5).addr ||| (773 / 256 % 256), tx, 0, tmo)] :=
  (bus_write_select_address (eepromDriver stm32f1 1 2048 17 5) (some (ofList [65, 66])) 2 773
    (State.init erased) rfl (by decide) (by decide)).1 rfl

/-- When the scratch buffer holds at least the address bytes (and its size is a
`size_t`), a length that passes the scratch-buffer check of bus_write fits
behind the address: addr_len + length <= writebuf_size. -/
theorem scratch_check_sound {σ : Type} (d : Mtd24aa σ) (len : Nat)
    (hal : d.cfg.addr_len ≤ d.writebuf_size) (hwb : d.writebuf_size < W32)
    (hcheck : len ≤ u32 (d.writebuf_size + W32 - d.cfg.addr_len)) :
    d.cfg.addr_len + len ≤ d.writebuf_size := by
  unfold u32 W32 at *
  omega

/-- Instance: 8 bytes behind one address byte in a 9-byte scratch buffer. -/
theorem scratch_check_sound_witness :
    (dev256 stm32f1).cfg.addr_len + 8 ≤ (dev256 stm32f1).writebuf_size :=
  scratch_check_sound (dev256 stm32f1) 8 (by decide) (by decide) (by decide)

/-! ## The value returned by a transfer -/

/-- Transactions of a non-empty `bus_read` that passes its checks, on every
build: the one transaction of its `i2c_read`. -/
theorem bus_read_transactions {σ : Type} (d : Mtd24aa σ) (rxbuf : Buf) (len offset : Nat)
    (s : State σ) (hin : u32 (offset + len) ≤ d.cfg.capacity)
    (hwb : d.cfg.addr_len ≤ d.writebuf_size) (hlen : len ≠ 0) :
    transactions (bus_read d rxbuf len offset s).1.trace =
      transactions s.trace ++
        [(d.addr ||| addrSuffix (readBuf d len (addr2buf s.writebuf offset d.cfg.addr_len))
            d.cfg.addr_len,
          bytes (readBuf d len (addr2buf s.writebuf offset d.cfg.addr_len)) d.cfg.addr_len,
          readLen d len,
          calc_timeout d.MS2ST (u32 (readLen d len + d.cfg.addr_len)) d.i2cp.clock_speed)] := by
  obtain ⟨hst, -⟩ := i2c_read_transaction d rxbuf len d.cfg.addr_len
    { writebuf := addr2buf s.writebuf offset d.cfg.addr_len, i2cflags := s.i2cflags,
      bus := s.bus, trace := s.trace ++ [Event.acquire] } hlen
  have htx := i2c_read_transactions d rxbuf len d.cfg.addr_len
    { writebuf := addr2buf s.writebuf offset d.cfg.addr_len, i2cflags := s.i2cflags,
      bus := s.bus, trace := s.trace ++ [Event.acquire] } hlen
  unfold bus_read
  simp only [ge_iff_le, hin, hwb, not_true_eq_false, if_false, emit, hst]
  split_ifs <;> simp [transactions_append, transactions, htx]

/-- A `bus_read` that fails the check on the scratch buffer or asks for no byte
issues no bus transaction and ends on the fatal path. -/
theorem bus_read_halts {σ : Type} (d : Mtd24aa σ) (rxbuf : Buf) (len offset : Nat)
    (s : State σ) (h : len = 0 ∨ d.writebuf_size < d.cfg.addr_len) :
    transactions (bus_read d rxbuf len offset s).1.trace = transactions s.trace ∧
    (bus_read d rxbuf len offset s).2.2 = .halted := by
  unfold bus_read
  by_cases hin : u32 (offset + len) ≤ d.cfg.capacity
  · by_cases hwb : d.cfg.addr_len ≤ d.writebuf_size
    · have hlen : len = 0 := by
        rcases h with h | h
        · exact h
        · omega
      subst hlen
      simp only [ge_iff_le, hin, hwb, not_true_eq_false, if_false, emit]
      unfold i2c_read
      simp [transactions_append, transactions]
    · simp [hin, hwb]
  · simp [hin]

/-- C3: for every request with offset + length <= capacity, a bus_write (whose
length passes the scratch-buffer check) issues one bus transaction and returns
exactly the caller's length when that transaction reports MSG_OK and 0 for every
other status; a bus_read either issues one bus transaction and returns the
caller's length when it reports MSG_OK and 0 for every other status, also when
the erratum block widened the read, or, when the length is 0 or the scratch
buffer is shorter than the address, issues no transaction and returns nothing.
No other value is returned. -/
theorem transfer_returns_length_or_zero {σ : Type} (d : Mtd24aa σ) (len offset : Nat)
    (s : State σ) (hin : offset + len ≤ d.cfg.capacity) :
    (∀ txdata, len ≤ u32 (d.writebuf_size + W32 - d.cfg.addr_len) →
      ∃ a tx tmo,
        transactions (bus_write d txdata len offset s).1.trace =
          transactions s.trace ++ [(a, tx, 0, tmo)] ∧
        (bus_write d txdata len offset s).2 =
          .returned (if (d.i2cp.transmit s.bus a tx 0 tmo).1.status = MSG_OK then len else 0)) ∧
    (∀ rxbuf,
      (len ≠ 0 ∧ d.cfg.addr_len ≤ d.writebuf_size ∧ ∃ a tx rx tmo,
        transactions (bus_read d rxbuf len offset s).1.trace =
          transactions s.trace ++ [(a, tx, rx, tmo)] ∧
        (bus_read d rxbuf len offset s).2.2 =
          .returned (if (d.i2cp.transmit s.bus a tx rx tmo).1.status = MSG_OK
            then len else 0)) ∨
      ((len = 0 ∨ d.writebuf_size < d.cfg.addr_len) ∧
        transactions (bus_read d rxbuf len offset s).1.trace = transactions s.trace ∧
        (bus_read d rxbuf len offset s).2.2 = .halted)) := by
  have hin32 : u32 (offset + len) ≤ d.cfg.capacity :=
    le_trans (Nat.mod_le _ _) hin
  constructor
  · intro txdata hbuf
    exact ⟨_, _, _, bus_write_transactions d txdata len offset s hbuf hin32,
      (bus_write_transaction d txdata len offset s hbuf hin32).1⟩
  · intro rxbuf
    by_cases hok : len ≠ 0 ∧ d.cfg.addr_len ≤ d.writebuf_size
    · left
      refine ⟨hok.1, hok.2, _, _, _, _,
        bus_read_transactions d rxbuf len offset s hin32 hok.2 hok.1, ?_⟩
      rw [bus_read_transaction d rxbuf len offset s hin32 hok.2 hok.1]
      simp only [eq_comm]
    · right
      have h : len = 0 ∨ d.writebuf_size < d.cfg.addr_len := by
        by_cases h0 : len = 0
        · exact Or.inl h0
        · right
          have : ¬ d.cfg.addr_len ≤ d.writebuf_size := fun hwb => hok ⟨h0, hwb⟩
          omega
      exact ⟨h, bus_read_halts d rxbuf len offset s h⟩

/-- Instance of C3: with capacity 256 the call write(data5, 5, 251) on a
succeeding bus returns 5. -/
theorem transfer_returns_length_or_zero_witness :
    (bus_write (stubDriver stm32f1 1 256 9 5 okReply) (some (ofList [1, 2, 3, 4, 5])) 5 251
        (State.init ())).2 = .returned 5 :=
  match (transfer_returns_length_or_zero (stubDriver stm32f1 1 256 9 5 okReply) 5 251
      (State.init ()) (by decide)).1 (some (ofList [1, 2, 3, 4, 5])) (by decide) with
  | ⟨_, _, _, _, h⟩ => h

end Nvram

namespace Modbus

/-- A store leaves the read logs alone and appends its index. -/
theorem store_logs (e : Effect) (pos v : Nat) :
    (store e pos v).stores = e.stores ++ [pos] ∧
    (store e pos v).counterReads = e.counterReads ∧
    (store e pos v).sampleReads = e.sampleReads :=
  ⟨rfl, rfl, rfl⟩

/-- The counters loop on an even count `2 * k` ends after `k` rounds within the
bound: it stores `2 * k` consecutive registers and reads `k` consecutive
counter indices, starting at the register offset. -/
theorem countersLoop_even (inp : Inputs) (k : Nat) :
    ∀ (fuel iRegIndex pos : Nat) (e : Effect), k < fuel → 2 * k < 65536 →
      ∃ e2, countersLoop inp fuel (2 * k) iRegIndex pos e = some e2 ∧
        e2.stores = e.stores ++ List.range' pos (2 * k) ∧
        e2.counterReads = e.counterReads ++ List.range' iRegIndex k ∧
        e2.sampleReads = e.sampleReads := by
  induction k with
  | zero =>
    intro fuel iRegIndex pos e hf _
    cases fuel with
    | zero => omega
    | succ f => exact ⟨e, by simp [countersLoop], by simp, by simp, rfl⟩
  | succ k ih =>
    intro fuel iRegIndex pos e hf hk
    cases fuel with
    | zero => omega
    | succ f =>
      have hpos : 2 * (k + 1) > 0 := by omega
      have hnext : (2 * (k + 1) + 65536 - 2) % 65536 = 2 * k := by omega
      obtain ⟨e2, h1, h2, h3, h4⟩ := ih f (iRegIndex + 1) (pos + 2)
        (store (store { e with counterReads := e.counterReads ++ [iRegIndex] } pos
          (inp.htonl (inp.counters iRegIndex) % 65536)) (pos + 1)
          (inp.htonl (inp.counters iRegIndex) / 65536)) (by omega) (by omega)
      refine ⟨e2, ?_, ?_, ?_, ?_⟩
      · simp only [countersLoop, hpos, if_true, hnext]
        exact h1
      · rw [h2]
        have hr : List.range' pos (2 * (k + 1)) = pos :: (pos + 1) :: List.range' (pos + 2) (2 * k) := by
          have : 2 * (k + 1) = (2 * k + 1) + 1 := by omega
          rw [this, List.range'_succ, List.range'_succ]
        simp [store, hr]
      · rw [h3]
        simp [store, List.range'_succ]
      · rw [h4]
        rfl

/-- The analog loop stores `n` consecutive registers and reads `n` consecutive
sample indices. -/
theorem analogLoop_logs (inp : Inputs) (n : Nat) :
    ∀ (iRegIndex pos : Nat) (e : Effect),
      (analogLoop inp n iRegIndex pos e).stores = e.stores ++ List.range' pos n ∧
      (analogLoop inp n iRegIndex pos e).sampleReads = e.sampleReads ++ List.range' iRegIndex n ∧
      (analogLoop inp n iRegIndex pos e).counterReads = e.counterReads := by
  induction n with
  | zero => intro i p e; simp [analogLoop]
  | succ n ih =>
    intro i p e
    obtain ⟨h1, h2, h3⟩ := ih (i + 1) (p + 1)
      (store { e with sampleReads := e.sampleReads ++ [i] } p (inp.htons (inp.samples i)))
    simp only [analogLoop]
    refine ⟨?_, ?_, ?_⟩
    · rw [h1]; simp [store, List.range'_succ]
    · rw [h2]; simp [store, List.range'_succ]
    · rw [h3]; rfl


/-- C16 fails on the code: the request usAddress = 91, usNRegs = 2 (registers
90 and 91, inside the 28 counter registers) is accepted, two registers are
written, and the counters array is read at index 26, the register offset, not
below 14. -/
theorem counters_index_is_register_offset (inp : Inputs) (buf : Nat → Nat) :
    (91 + 65535) % 65536 ≥ 64 ∧ (91 + 65535) % 65536 ≠ 96 ∧ 2 % 2 = 0 ∧
    ((91 + 65535) % 65536 - 64) + 2 ≤ 28 ∧
    (eMBRegInputCB inp buf 91 2).map (fun r => (r.1, r.2.counterReads, r.2.stores))
      = some (.MB_ENOERR, [26], [0, 1]) ∧
    ¬ (26 < 14) := by
  refine ⟨by decide, by decide, by decide, by decide, ?_, by decide⟩
  rfl

/-- C15: for every 16-bit usAddress and usNRegs, with a = usAddress - 1 (16-bit
wrap-around) and n = usNRegs, eMBRegInputCB returns, and it returns MB_ENOERR
exactly when a = 96 and n = 1, or a >= 64, a != 96, (a - 64) + n <= 28 and n is
even, or 32 <= a < 64 and (a - 32) + n <= 10; in every other case it returns
MB_ENOREG and leaves the register buffer untouched, with no store and no read. -/
theorem eMBRegInputCB_accepts (inp : Inputs) (buf : Nat → Nat) (usAddress usNRegs : Nat)
    (_ha : usAddress < 65536) (hn : usNRegs < 65536) :
    ∃ r, eMBRegInputCB inp buf usAddress usNRegs = some r ∧
      (r.1 = .MB_ENOERR ↔
        (((usAddress + 65535) % 65536 = 96 ∧ usNRegs = 1) ∨
         ((usAddress + 65535) % 65536 ≥ 64 ∧ (usAddress + 65535) % 65536 ≠ 96 ∧
            ((usAddress + 65535) % 65536 - 64) + usNRegs ≤ 28 ∧ usNRegs % 2 = 0) ∨
         (32 ≤ (usAddress + 65535) % 65536 ∧ (usAddress + 65535) % 65536 < 64 ∧
            ((usAddress + 65535) % 65536 - 32) + usNRegs ≤ 10))) ∧
      (r.1 ≠ .MB_ENOERR → r.1 = .MB_ENOREG ∧ r.2 = ⟨buf, [], [], []⟩) := by
  generalize hadef : (usAddress + 65535) % 65536 = a
  unfold eMBRegInputCB
  simp only [hadef, R_DigitalInputStart, R_DigitalInputSize, R_CounterStart, R_CounterSize,
    R_AnalogInputStart, R_AnalogInputSize]
  by_cases h96 : a = 96
  · by_cases h1 : usNRegs = 1
    · refine ⟨(.MB_ENOERR, store ⟨buf, [], [], []⟩ 0 (inp.htons inp.binaryVal)),
        by simp [h96, h1], ?_, ?_⟩
      · simp [h96, h1]
      · intro hne; exact absurd rfl hne
    · refine ⟨(.MB_ENOREG, ⟨buf, [], [], []⟩), by simp [h96, h1], ?_, ?_⟩
      · simp only [reduceCtorEq, false_iff]
        omega
      · intro _; exact ⟨rfl, rfl⟩
  · by_cases h64 : a ≥ 64
    · by_cases hacc : usNRegs + (a - 64) ≤ 14 * 2 ∧ usNRegs % 2 = 0
      · obtain ⟨e2, hloop, -, -, -⟩ := countersLoop_even inp (usNRegs / 2) 32768 (a - 64) 0
          ⟨buf, [], [], []⟩ (by omega) (by omega)
        have h2k : 2 * (usNRegs / 2) = usNRegs := by omega
        rw [h2k] at hloop
        refine ⟨(.MB_ENOERR, e2), by simp [h96, h64, hacc, hloop], ?_, ?_⟩
        · simp only [true_iff]
          right; left
          exact ⟨h64, h96, by omega, hacc.2⟩
        · intro hne; exact absurd rfl hne
      · refine ⟨(.MB_ENOREG, ⟨buf, [], [], []⟩),
          by simp only [h96, h64, hacc, if_false, if_true], ?_, ?_⟩
        · simp only [reduceCtorEq, false_iff]
          omega
        · intro _; exact ⟨rfl, rfl⟩
    · by_cases h32 : a ≥ 32
      · by_cases hacc : usNRegs + (a - 32) ≤ 10
        · refine ⟨(.MB_ENOERR, analogLoop inp usNRegs (a - 32) 0 ⟨buf, [], [], []⟩),
            by simp only [h96, h64, h32, hacc, if_false, if_true], ?_, ?_⟩
          · simp only [true_iff]
            right; right
            exact ⟨h32, by omega, by omega⟩
          · intro hne; exact absurd rfl hne
        · refine ⟨(.MB_ENOREG, ⟨buf, [], [], []⟩),
            by simp only [h96, h64, h32, hacc, if_false, if_true], ?_, ?_⟩
          · simp only [reduceCtorEq, false_iff]
            omega
          · intro _; exact ⟨rfl, rfl⟩
      · refine ⟨(.MB_ENOREG, ⟨buf, [], [], []⟩),
          by simp only [h96, h64, h32, if_false], ?_, ?_⟩
        · simp only [reduceCtorEq, false_iff]
          omega
        · intro _; exact ⟨rfl, rfl⟩

/-- Instance of C15: the digital-input register, usAddress = 97 and one register. -/
theorem eMBRegInputCB_accepts_witness :
    ∃ r, eMBRegInputCB testInputs (fun _ => 0) 97 1 = some r ∧
      (r.1 = .MB_ENOERR ↔
        (((97 + 65535) % 65536 = 96 ∧ 1 = 1) ∨
         ((97 + 65535) % 65536 ≥ 64 ∧ (97 + 65535) % 65536 ≠ 96 ∧
            ((97 + 65535) % 65536 - 64) + 1 ≤ 28 ∧ 1 % 2 = 0) ∨
         (32 ≤ (97 + 65535) % 65536 ∧ (97 + 65535) % 65536 < 64 ∧
            ((97 + 65535) % 65536 - 32) + 1 ≤ 10))) ∧
      (r.1 ≠ .MB_ENOERR → r.1 = .MB_ENOREG ∧ r.2 = ⟨fun _ => 0, [], [], []⟩) :=
  eMBRegInputCB_accepts testInputs (fun _ => 0) 97 1 (by decide) (by decide)

/-- Every counters request the callback accepts (a = usAddress - 1 >= 64,
a != 96, n even, (a - 64) + n <= 28) writes exactly the n registers 0 .. n - 1 of
the buffer and reads the counters array at the n / 2 consecutive indices that
start at the register offset a - 64. -/
theorem counters_request_effect (inp : Inputs) (buf : Nat → Nat) (usAddress usNRegs : Nat)
    (hn : usNRegs < 65536) (h64 : (usAddress + 65535) % 65536 ≥ 64)
    (h96 : (usAddress + 65535) % 65536 ≠ 96)
    (hacc : ((usAddress + 65535) % 65536 - 64) + usNRegs ≤ 28) (heven : usNRegs % 2 = 0) :
    ∃ e, eMBRegInputCB inp buf usAddress usNRegs = some (.MB_ENOERR, e) ∧
      e.stores = List.range' 0 usNRegs ∧
      e.counterReads = List.range' ((usAddress + 65535) % 65536 - 64) (usNRegs / 2) ∧
      e.sampleReads = [] := by
  generalize hadef : (usAddress + 65535) % 65536 = a at *
  obtain ⟨e2, hloop, hs, hc, hr⟩ := countersLoop_even inp (usNRegs / 2) 32768 (a - 64) 0
    ⟨buf, [], [], []⟩ (by omega) (by omega)
  have h2k : 2 * (usNRegs / 2) = usNRegs := by omega
  rw [h2k] at hloop hs
  have hcond : usNRegs + (a - 64) ≤ 14 * 2 ∧ usNRegs % 2 = 0 := ⟨by omega, heven⟩
  refine ⟨e2, ?_, by simpa using hs, by simpa using hc, by simpa using hr⟩
  unfold eMBRegInputCB
  simp only [hadef, R_DigitalInputStart, R_CounterStart, R_CounterSize, h96, h64, hcond,
    if_false, if_true, and_self, hloop, Option.map_some']

/-- Instance: the whole counter block, 28 registers from register 64. -/
theorem counters_request_effect_witness :
    ∃ e, eMBRegInputCB testInputs (fun _ => 0) 65 28 = some (.MB_ENOERR, e) ∧
      e.stores = List.range' 0 28 ∧
      e.counterReads = List.range' ((65 + 65535) % 65536 - 64) (28 / 2) ∧
      e.sampleReads = [] :=
  counters_request_effect testInputs (fun _ => 0) 65 28 (by decide) (by decide) (by decide)
    (by decide) (by decide)

end Modbus

namespace OWire

/-- The scan finds nothing exactly when no entry holds the ID. -/
theorem scanFrom_eq_none (id : OWID) (l : List OWListElm) (i : Nat) :
    scanFrom id l i = none ↔ ∀ e ∈ l, e.ID ≠ id := by
  induction l generalizing i with
  | nil => simp [scanFrom]
  | cons e es ih =>
    by_cases h : e.ID = id
    · simp [scanFrom, h]
    · simp [scanFrom, h, ih]

/-- What the scan finds is the first entry holding the ID. -/
theorem scanFrom_eq_some (id : OWID) (l : List OWListElm) (i k : Nat)
    (h : scanFrom id l i = some k) :
    ∃ j e, k = i + j ∧ l[j]? = some e ∧ e.ID = id ∧
      ∀ j' e', j' < j → l[j']? = some e' → e'.ID ≠ id := by
  induction l generalizing i with
  | nil => simp [scanFrom] at h
  | cons e es ih =>
    by_cases he : e.ID = id
    · simp only [scanFrom, he, if_true, Option.some.injEq] at h
      exact ⟨0, e, by omega, by simp, he, by intro j' e' hj; omega⟩
    · simp only [scanFrom, he, if_false] at h
      obtain ⟨j, e2, hk, hget, hid, hfirst⟩ := ih (i + 1) h
      refine ⟨j + 1, e2, by omega, by simpa using hget, hid, ?_⟩
      intro j' e' hj hget'
      cases j' with
      | zero =>
        simp only [List.getElem?_cons_zero, Option.some.injEq] at hget'
        rw [← hget']; exact he
      | succ j'' =>
        simp only [List.getElem?_cons_succ] at hget'
        exact hfirst j'' e' (by omega) hget'

/-- The first entry holding the ID is what the scan finds. -/
theorem scanFrom_of_first (id : OWID) (l : List OWListElm) (j : Nat) (e : OWListElm)
    (hget : l[j]? = some e) (hid : e.ID = id)
    (hfirst : ∀ j' e', j' < j → l[j']? = some e' → e'.ID ≠ id) :
    scanFrom id l 0 = some j := by
  cases hs : scanFrom id l 0 with
  | none =>
    have hmem : e ∈ l := List.getElem?_mem hget
    exact absurd hid ((scanFrom_eq_none id l 0).mp hs e hmem)
  | some k =>
    obtain ⟨j2, e2, hk, hget2, hid2, hfirst2⟩ := scanFrom_eq_some id l 0 k hs
    have hkj : k = j2 := by omega
    subst hkj
    rcases Nat.lt_trichotomy k j with hlt | heq | hgt
    · exact absurd hid2 (hfirst k e2 hlt hget2)
    · rw [heq]
    · exact absurd hid (hfirst2 j e hgt hget)

/-- The entry `FindElm` returns holds the ID. -/
theorem FindElm_holds (l : OWList) (id : OWID) (k : Nat) (h : FindElm l id = some k) :
    ∃ e, l[k]? = some e ∧ e.ID = id := by
  obtain ⟨j, e, hk, hget, hid, -⟩ := scanFrom_eq_some id l 0 k h
  have : k = j := by omega
  subst this
  exact ⟨e, hget, hid⟩

/-- The three outcomes of `FindOrAddElm`: the ID is found, or it is absent and
the first all-zero entry takes it, or it is absent and no entry is all-zero. -/
theorem FindOrAddElm_cases (l : OWList) (id : OWID) :
    (∃ k, FindElm l id = some k ∧ FindOrAddElm l id = (some k, l)) ∨
    (∃ i, FindElm l id = none ∧ scanFrom idzero l 0 = some i ∧
      FindOrAddElm l id =
        (some i, l.set i { ID := id, Temperature := 0xffff, Humidity := 0xffff })) ∨
    (FindElm l id = none ∧ scanFrom idzero l 0 = none ∧ FindOrAddElm l id = (none, l)) := by
  unfold FindOrAddElm
  cases h1 : FindElm l id with
  | some k => exact Or.inl ⟨k, rfl, rfl⟩
  | none =>
    cases h2 : scanFrom idzero l 0 with
    | some i => exact Or.inr (Or.inl ⟨i, rfl, rfl, rfl⟩)
    | none => exact Or.inr (Or.inr ⟨rfl, rfl, rfl⟩)

/-- C17: for every table and every 8-byte id, AddElm(id) returns false exactly
when no entry holds id and no entry has the all-zero ID, and then leaves the
table unchanged; when it returns true, FindElm(id) on the new table returns an
entry whose ID is id; when id was present the table is unchanged; and when it was
absent, the table changes at the first all-zero entry only, which becomes
ID = id, Temperature = 0xffff, Humidity = 0xffff. -/
theorem AddElm_spec (l : OWList) (id : OWID) :
    ((AddElm l id).1 = false ↔ (∀ e ∈ l, e.ID ≠ id) ∧ (∀ e ∈ l, e.ID ≠ idzero)) ∧
    ((AddElm l id).1 = false → (AddElm l id).2 = l) ∧
    ((AddElm l id).1 = true →
      ∃ k e, FindElm (AddElm l id).2 id = some k ∧ (AddElm l id).2[k]? = some e ∧ e.ID = id) ∧
    ((∃ e ∈ l, e.ID = id) → (AddElm l id).2 = l) ∧
    (∀ i e, (∀ e' ∈ l, e'.ID ≠ id) → l[i]? = some e → e.ID = idzero →
      (∀ j e', j < i → l[j]? = some e' → e'.ID ≠ idzero) →
      (AddElm l id).2 = l.set i { ID := id, Temperature := 0xffff, Humidity := 0xffff }) := by
  unfold AddElm
  rcases FindOrAddElm_cases l id with ⟨k, hf, hr⟩ | ⟨i, hf, hz, hr⟩ | ⟨hf, hz, hr⟩
  · -- the ID is present
    obtain ⟨e, hget, hid⟩ := FindElm_holds l id k hf
    have hmem : e ∈ l := List.getElem?_mem hget
    rw [hr]
    refine ⟨?_, ?_, ?_, ?_, ?_⟩
    · simp only [Option.isSome_some, Bool.true_eq_false, false_iff]
      intro h; exact h.1 e hmem hid
    · intro h; simp at h
    · intro _; exact ⟨k, e, hf, hget, hid⟩
    · intro _; rfl
    · intro i e2 habs; exact absurd hid (habs e hmem)
  · -- the ID is absent and takes the first all-zero entry
    obtain ⟨j, ez, hj, hgetz, hidz, hfirstz⟩ := scanFrom_eq_some idzero l 0 i hz
    have hij : i = j := by omega
    subst hij
    have hmemz : ez ∈ l := List.getElem?_mem hgetz
    have hlen : i < l.length := by
      have := (List.getElem?_eq_some_iff.mp hgetz).1
      exact this
    have habs : ∀ e ∈ l, e.ID ≠ id := (scanFrom_eq_none id l 0).mp hf
    have hnew : (l.set i { ID := id, Temperature := 0xffff, Humidity := 0xffff })[i]?
        = some { ID := id, Temperature := 0xffff, Humidity := 0xffff } := by
      simp [List.getElem?_set, hlen]
    rw [hr]
    refine ⟨?_, ?_, ?_, ?_, ?_⟩
    · simp only [Option.isSome_some, Bool.true_eq_false, false_iff]
      intro h; exact h.2 ez hmemz hidz
    · intro h; simp at h
    · intro _
      cases hs : FindElm (l.set i { ID := id, Temperature := 0xffff, Humidity := 0xffff }) id with
      | none =>
        have := (scanFrom_eq_none id _ 0).mp hs _ (List.getElem?_mem hnew)
        exact absurd rfl this
      | some k =>
        obtain ⟨e, hget, hid⟩ := FindElm_holds _ id k hs
        exact ⟨k, e, rfl, hget, hid⟩
    · intro ⟨e, hmem, hid⟩; exact absurd hid (habs e hmem)
    · intro i2 e2 _ hget2 hid2 hfirst2
      have := scanFrom_of_first idzero l i2 e2 hget2 hid2 hfirst2
      rw [hz] at this
      have hii : i = i2 := by injection this
      rw [hii]
  · -- the ID is absent and the table is full
    have habs : ∀ e ∈ l, e.ID ≠ id := (scanFrom_eq_none id l 0).mp hf
    have hfull : ∀ e ∈ l, e.ID ≠ idzero := (scanFrom_eq_none idzero l 0).mp hz
    rw [hr]
    refine ⟨?_, ?_, ?_, ?_, ?_⟩
    · simp only [Option.isSome_none, true_iff]
      exact ⟨habs, hfull⟩
    · intro _; rfl
    · intro h; simp at h
    · intro _; rfl
    · intro i e _ hget hid _
      exact absurd hid (hfull e (List.getElem?_mem hget))

/-- Instance of C17: adding an ID to the cleared two-entry table succeeds and the
ID is found afterwards. -/
theorem AddElm_spec_witness :
    ∃ k e, FindElm (AddElm (ClearAll (junkTable 2)) sampleId).2 sampleId = some k ∧
      (AddElm (ClearAll (junkTable 2)) sampleId).2[k]? = some e ∧ e.ID = sampleId :=
  (AddElm_spec (ClearAll (junkTable 2)) sampleId).2.2.1 (by decide)

/-- Entry `i` holds the ID `x`. -/
theorem ids_getElem? (l : OWList) (i : Nat) (x : OWID) :
    (ids l)[i]? = some x ↔ ∃ e, l[i]? = some e ∧ e.ID = x := by
  simp [ids]

/-- An assignment that keeps the ID of the entry keeps all IDs. -/
theorem ids_assign (f : OWListElm → OWListElm) (hf : ∀ e, (f e).ID = e.ID)
    (l : List OWListElm) (i : Nat) : ids (assign f l i) = ids l := by
  induction l generalizing i with
  | nil => rfl
  | cons e es ih =>
    cases i with
    | zero => simp [assign, ids, hf]
    | succ i =>
      have := ih i
      simp only [ids] at this
      simp [assign, ids, this]

/-- IDs after `SetTemperature`. -/
theorem ids_SetTemperature (l : OWList) (id : OWID) (t : Nat) :
    ids (SetTemperature l id t).2 = ids l := by
  unfold SetTemperature
  cases FindElm l id with
  | none => rfl
  | some i =>
    exact ids_assign (fun e => { e with Temperature := t }) (fun _ => rfl) l i

/-- IDs after `SetHumidity`. -/
theorem ids_SetHumidity (l : OWList) (id : OWID) (h : Nat) :
    ids (SetHumidity l id h).2 = ids l := by
  unfold SetHumidity
  cases FindElm l id with
  | none => rfl
  | some i =>
    exact ids_assign (fun e => { e with Humidity := h }) (fun _ => rfl) l i

/-- IDs after `AddElm`: unchanged, or the first all-zero ID replaced by an ID
that was absent and is not all-zero. -/
theorem ids_AddElm (l : OWList) (id : OWID) :
    ids (AddElm l id).2 = ids l ∨
    ∃ i, ids (AddElm l id).2 = (ids l).set i id ∧ (ids l)[i]? = some idzero ∧
      (∀ (j : Nat) (x : OWID), j < i → (ids l)[j]? = some x → x ≠ idzero) ∧
      (∀ j : Nat, (ids l)[j]? ≠ some id) ∧ id ≠ idzero ∧ (AddElm l id).1 = true := by
  unfold AddElm
  rcases FindOrAddElm_cases l id with ⟨k, hf, hr⟩ | ⟨i, hf, hz, hr⟩ | ⟨hf, hz, hr⟩
  · left; rw [hr]
  · right
    obtain ⟨j, ez, hj, hgetz, hidz, hfirstz⟩ := scanFrom_eq_some idzero l 0 i hz
    have hij : i = j := by omega
    subst hij
    have habs : ∀ e ∈ l, e.ID ≠ id := (scanFrom_eq_none id l 0).mp hf
    refine ⟨i, ?_, ?_, ?_, ?_, ?_, ?_⟩
    · rw [hr]; simp [ids]
    · exact (ids_getElem? l i idzero).mpr ⟨ez, hgetz, hidz⟩
    · intro j x hj hx
      obtain ⟨e, hge, hie⟩ := (ids_getElem? l j x).mp hx
      rw [← hie]; exact hfirstz j e hj hge
    · intro j hx
      obtain ⟨e, hge, hie⟩ := (ids_getElem? l j id).mp hx
      exact habs e (List.getElem?_mem hge) hie
    · intro hid
      exact habs ez (List.getElem?_mem hgetz) (by rw [hidz, hid])
    · rw [hr]; rfl
  · left; rw [hr]

/-- IDs after `ClearAll`: all zero. -/
theorem ids_ClearAll (l : OWList) : ids (ClearAll l) = List.replicate l.length idzero := by
  simp [ids, ClearAll]

/-- Both table properties hold after `ClearAll`. -/
theorem inv_ClearAll (l : OWList) : NoDuplicate (ClearAll l) ∧ UsedFirst (ClearAll l) := by
  constructor
  · intro i j x hi _ hx
    rw [ids_ClearAll, List.getElem?_replicate] at hi
    split at hi
    · injection hi with hi; exact absurd hi.symm hx
    · cases hi
  · intro i j x _ _ hj
    rw [ids_ClearAll, List.getElem?_replicate] at hj
    split at hj
    · injection hj with hj; exact hj.symm
    · cases hj

/-- Both table properties depend on the IDs only. -/
theorem inv_of_ids (l l2 : OWList) (h : ids l2 = ids l)
    (hinv : NoDuplicate l ∧ UsedFirst l) : NoDuplicate l2 ∧ UsedFirst l2 := by
  unfold NoDuplicate UsedFirst at *
  rw [h]
  exact hinv

/-- `AddElm` keeps both table properties. -/
theorem inv_AddElm (l : OWList) (id : OWID) (hinv : NoDuplicate l ∧ UsedFirst l) :
    NoDuplicate (AddElm l id).2 ∧ UsedFirst (AddElm l id).2 := by
  rcases ids_AddElm l id with hsame | ⟨i, hset, hzero, hfirst, habs, hnz, -⟩
  · exact inv_of_ids l _ hsame hinv
  · obtain ⟨hnd, huf⟩ := hinv
    unfold NoDuplicate UsedFirst at *
    rw [hset]
    constructor
    · intro a b x ha hb hx
      rw [List.getElem?_set] at ha hb
      by_cases hia : i = a
      · by_cases hib : i = b
        · omega
        · simp only [hia, if_true] at ha
          simp only [hib, if_false] at hb
          split at ha
          · injection ha with ha
            rw [← ha] at hb
            exact absurd hb (habs b)
          · cases ha
      · by_cases hib : i = b
        · simp only [hia, if_false] at ha
          simp only [hib, if_true] at hb
          split at hb
          · injection hb with hb
            rw [← hb] at ha
            exact absurd ha (habs a)
          · cases hb
        · simp only [hia, if_false] at ha
          simp only [hib, if_false] at hb
          exact hnd a b x ha hb hx
    · intro a b x hab ha hb
      rw [List.getElem?_set] at ha hb
      by_cases hia : i = a
      · simp only [hia, if_true] at ha
        split at ha
        · injection ha with ha
          exact absurd ha hnz
        · cases ha
      · simp only [hia, if_false] at ha
        have hgt : i < a := by
          rcases Nat.lt_trichotomy a i with h | h | h
          · exact absurd rfl (hfirst a idzero h ha)
          · exact absurd h.symm hia
          · exact h
        have hib : ¬ i = b := by omega
        simp only [hib, if_false] at hb
        exact huf a b x hab ha hb

/-- Every call keeps both table properties. -/
theorem inv_step (l : OWList) (op : Op) (hinv : NoDuplicate l ∧ UsedFirst l) :
    NoDuplicate (step l op) ∧ UsedFirst (step l op) := by
  cases op with
  | add id => exact inv_AddElm l id hinv
  | setTemperature id t => exact inv_of_ids l _ (ids_SetTemperature l id t) hinv
  | setHumidity id h => exact inv_of_ids l _ (ids_SetHumidity l id h) hinv

/-- Every sequence of calls keeps both table properties. -/
theorem inv_run (ops : List Op) :
    ∀ l : OWList, NoDuplicate l ∧ UsedFirst l → NoDuplicate (run l ops) ∧ UsedFirst (run l ops) := by
  induction ops with
  | nil => intro l h; exact h
  | cons op ops ih =>
    intro l h
    exact ih (step l op) (inv_step l op h)

/-- C18: in every state reached from ClearAll by a sequence of AddElm,
SetTemperature and SetHumidity calls with arbitrary ids and values, no two
entries hold the same non-zero ID, and no all-zero-ID entry precedes an entry
with a non-zero ID: the entries in use form the head of the table. -/
theorem table_invariant (l0 : OWList) (ops : List Op) :
    NoDuplicate (run (ClearAll l0) ops) ∧ UsedFirst (run (ClearAll l0) ops) :=
  inv_run ops (ClearAll l0) (inv_ClearAll l0)

/-- `FindElm` fails exactly when no entry position holds the ID. -/
theorem FindElm_isSome (l : OWList) (id : OWID) :
    (FindElm l id).isSome = true ↔ ∃ j : Nat, (ids l)[j]? = some id := by
  constructor
  · intro h
    cases hf : FindElm l id with
    | none => rw [hf] at h; cases h
    | some k =>
      obtain ⟨e, hget, hid⟩ := FindElm_holds l id k hf
      exact ⟨k, (ids_getElem? l k id).mpr ⟨e, hget, hid⟩⟩
  · intro ⟨j, hj⟩
    obtain ⟨e, hget, hid⟩ := (ids_getElem? l j id).mp hj
    cases hf : FindElm l id with
    | none => exact absurd hid ((scanFrom_eq_none id l 0).mp hf e (List.getElem?_mem hget))
    | some k => rfl

/-- After a successful `AddElm` some entry holds the ID. -/
theorem AddElm_true_mem (l : OWList) (id : OWID) (h : (AddElm l id).1 = true) :
    ∃ j : Nat, (ids (AddElm l id).2)[j]? = some id := by
  unfold AddElm at *
  rcases FindOrAddElm_cases l id with ⟨k, hf, hr⟩ | ⟨i, hf, hz, hr⟩ | ⟨hf, hz, hr⟩
  · rw [hr]
    exact (FindElm_isSome l id).mp (by rw [hf]; rfl)
  · obtain ⟨j, ez, hj, hgetz, -, -⟩ := scanFrom_eq_some idzero l 0 i hz
    have hij : i = j := by omega
    subst hij
    have hlen : i < l.length := (List.getElem?_eq_some_iff.mp hgetz).1
    rw [hr]
    exact ⟨i, by simp [ids, List.getElem?_set, hlen]⟩
  · rw [hr] at h; cases h

/-- Which IDs other than the all-zero one the table holds after `AddElm(id2)`:
those it held before, and `id2` when the call succeeded. -/
theorem mem_AddElm (l : OWList) (id id2 : OWID) (hid : id ≠ idzero) :
    (∃ j : Nat, (ids (AddElm l id2).2)[j]? = some id) ↔
      (∃ j : Nat, (ids l)[j]? = some id) ∨ (id2 = id ∧ (AddElm l id2).1 = true) := by
  rcases ids_AddElm l id2 with hsame | ⟨i, hset, hzero, -, -, -, hok⟩
  · rw [hsame]
    constructor
    · intro h; exact Or.inl h
    · rintro (h | ⟨heq, hok⟩)
      · exact h
      · have := AddElm_true_mem l id2 hok
        rw [hsame, heq] at this
        exact this
  · have hlen : i < (ids l).length := (List.getElem?_eq_some_iff.mp hzero).1
    rw [hset]
    constructor
    · rintro ⟨j, hj⟩
      rw [List.getElem?_set] at hj
      by_cases hij : i = j
      · simp only [hij, if_true] at hj
        split at hj
        · injection hj with hj
          exact Or.inr ⟨hj, hok⟩
        · cases hj
      · simp only [hij, if_false] at hj
        exact Or.inl ⟨j, hj⟩
    · rintro (⟨j, hj⟩ | ⟨heq, -⟩)
      · have hij : i ≠ j := by
          intro hij
          rw [hij] at hzero
          rw [hzero] at hj
          injection hj with hj
          exact hid hj.symm
        exact ⟨j, by rw [List.getElem?_set]; simp [hij, hj]⟩
      · exact ⟨i, by rw [List.getElem?_set]; simp [hlen, heq]⟩

/-- The calls of a sequence prolonged by one call that added the ID. -/
theorem addedBy_snoc (l0 : OWList) (ops : List Op) (op : Op) (id : OWID) :
    addedBy l0 (ops ++ [op]) id ↔
      addedBy l0 ops id ∨ (op = Op.add id ∧ (AddElm (run (ClearAll l0) ops) id).1 = true) := by
  unfold addedBy
  constructor
  · rintro ⟨before, after, heq, hok⟩
    rcases List.eq_nil_or_concat after with hnil | ⟨after2, last, hcat⟩
    · subst hnil
      have h2 : ops ++ [op] = (before) ++ [Op.add id] := heq
      have h3 := List.append_inj' h2 rfl
      right
      obtain ⟨h4, h5⟩ := h3
      refine ⟨by injection h5, ?_⟩
      rw [h4]; exact hok
    · rw [List.concat_eq_append] at hcat
      subst hcat
      have h2 : ops ++ [op] = (before ++ Op.add id :: after2) ++ [last] := by
        rw [heq]; simp
      have h3 := List.append_inj' h2 rfl
      left
      exact ⟨before, after2, h3.1, hok⟩
  · rintro (⟨before, after, heq, hok⟩ | ⟨hop, hok⟩)
    · exact ⟨before, after ++ [op], by rw [heq]; simp, hok⟩
    · exact ⟨ops, [], by rw [hop], hok⟩

/-- In a state reached from ClearAll, the IDs other than the all-zero one that
the table holds are those a call `AddElm` of the sequence added with success. -/
theorem mem_run_iff_added (l0 : OWList) (ops : List Op) (id : OWID) (hid : id ≠ idzero) :
    (∃ j : Nat, (ids (run (ClearAll l0) ops))[j]? = some id) ↔ addedBy l0 ops id := by
  induction ops using List.reverseRecOn with
  | nil =>
    constructor
    · rintro ⟨j, hj⟩
      simp only [run, List.foldl_nil] at hj
      rw [ids_ClearAll, List.getElem?_replicate] at hj
      split at hj
      · injection hj with hj; exact absurd hj.symm hid
      · cases hj
    · rintro ⟨before, after, heq, -⟩
      cases before <;> cases heq
  | append_singleton ops op ih =>
    have hrun : run (ClearAll l0) (ops ++ [op]) = step (run (ClearAll l0) ops) op := by
      simp [run, List.foldl_append]
    rw [hrun, addedBy_snoc, ← ih]
    cases op with
    | add id2 =>
      simp only [step]
      rw [mem_AddElm _ id id2 hid]
      constructor
      · rintro (h | ⟨heq, hok⟩)
        · exact Or.inl h
        · subst heq; exact Or.inr ⟨rfl, hok⟩
      · rintro (h | ⟨heq, hok⟩)
        · exact Or.inl h
        · injection heq with heq
          subst heq; exact Or.inr ⟨rfl, hok⟩
    | setTemperature id2 t =>
      simp only [step, ids_SetTemperature]
      constructor
      · intro h; exact Or.inl h
      · rintro (h | ⟨heq, -⟩)
        · exact h
        · cases heq
    | setHumidity id2 h =>
      simp only [step, ids_SetHumidity]
      constructor
      · intro h; exact Or.inl h
      · rintro (h | ⟨heq, -⟩)
        · exact h
        · cases heq

/-- An assignment through the pointer to entry `k` replaces that entry only. -/
theorem assign_eq_set (f : OWListElm → OWListElm) (l : List OWListElm) (k : Nat)
    (e : OWListElm) (h : l[k]? = some e) : assign f l k = l.set k (f e) := by
  induction l generalizing k with
  | nil => simp at h
  | cons a as ih =>
    cases k with
    | zero =>
      simp only [List.getElem?_cons_zero, Option.some.injEq] at h
      simp [assign, h]
    | succ k =>
      simp only [List.getElem?_cons_succ] at h
      simp [assign, ih k h]

/-- Result and effect of a field assignment behind `FindElm`, as in
`SetTemperature` and `SetHumidity`: nothing when the ID is not found, else the
field of the entry found. -/
theorem set_field_effect (f : OWListElm → OWListElm) (l : OWList) (id : OWID) :
    (FindElm l id = none ∧
      (match FindElm l id with
        | none => (false, l)
        | some i => (true, assign f l i)) = (false, l)) ∨
    (∃ k e, FindElm l id = some k ∧ l[k]? = some e ∧ e.ID = id ∧
      (match FindElm l id with
        | none => (false, l)
        | some i => (true, assign f l i)) = (true, l.set k (f e))) := by
  cases hf : FindElm l id with
  | none => exact Or.inl ⟨rfl, rfl⟩
  | some k =>
    obtain ⟨e, hget, hid⟩ := FindElm_holds l id k hf
    exact Or.inr ⟨k, e, rfl, hget, hid, by simp only [assign_eq_set f l k e hget]⟩

/-- C19, as stated, fails for the all-zero id: right after ClearAll, with no
AddElm call made, SetTemperature(idzero, 5) and SetHumidity(idzero, 5) return
true and write into entry 0. -/
theorem set_on_zero_id_succeeds :
    ¬ addedBy (junkTable 2) [] idzero ∧
    (SetTemperature (run (ClearAll (junkTable 2)) []) idzero 5).1 = true ∧
    (SetHumidity (run (ClearAll (junkTable 2)) []) idzero 5).1 = true ∧
    (SetTemperature (run (ClearAll (junkTable 2)) []) idzero 5).2 =
      [{ ID := idzero, Temperature := 5, Humidity := 0 },
       { ID := idzero, Temperature := 0, Humidity := 0 }] := by
  refine ⟨?_, by decide, by decide, by decide⟩
  rintro ⟨before, after, heq, -⟩
  cases before <;> cases heq

/-- A successful field assignment on the all-zero id writes the first all-zero
entry, on every table. -/
theorem set_field_zero (f : OWListElm → OWListElm) (l : OWList) :
    ((match FindElm l idzero with
        | none => (false, l)
        | some i => (true, assign f l i)).1 = true ↔ ∃ e ∈ l, e.ID = idzero) ∧
    ((match FindElm l idzero with
        | none => (false, l)
        | some i => (true, assign f l i)).1 = true →
      ∃ (k : Nat) (e : OWListElm), l[k]? = some e ∧ e.ID = idzero ∧
        (∀ (j : Nat) (e2 : OWListElm), j < k → l[j]? = some e2 → e2.ID ≠ idzero) ∧
        (match FindElm l idzero with
          | none => (false, l)
          | some i => (true, assign f l i)).2 = l.set k (f e)) := by
  cases hf : FindElm l idzero with
  | none =>
    have habs := (scanFrom_eq_none idzero l 0).mp hf
    constructor
    · simp only [Bool.false_eq_true, false_iff]
      rintro ⟨e, hmem, hid⟩
      exact habs e hmem hid
    · intro h; cases h
  | some k =>
    obtain ⟨j, e, hk, hget, hid, hfirst⟩ := scanFrom_eq_some idzero l 0 k hf
    have hkj : k = j := by omega
    subst hkj
    constructor
    · simp only [true_iff]
      exact ⟨e, List.getElem?_mem hget, hid⟩
    · intro _
      exact ⟨k, e, hget, hid, hfirst, by simp only [assign_eq_set f l k e hget]⟩

/-- C19, amended: in every state reached from ClearAll by AddElm, SetTemperature
and SetHumidity calls, for every id other than the all-zero one,
SetTemperature(id, v) and SetHumidity(id, v) return true exactly when an earlier
AddElm(id) of the sequence returned true, and when they return true exactly one
entry holds id and the table changes in the Temperature (resp. Humidity) field of
that entry only; for every id, when they return false the table is unchanged; for
the all-zero id they return true exactly when the table has an entry with the
all-zero ID, and then the table changes in that field of the first such entry
only. -/
theorem set_field_spec (l0 : OWList) (ops : List Op) (l : OWList) (id : OWID) (v : Nat)
    (hl : l = run (ClearAll l0) ops) :
    (id ≠ idzero →
      ((SetTemperature l id v).1 = true ↔ addedBy l0 ops id) ∧
      ((SetHumidity l id v).1 = true ↔ addedBy l0 ops id) ∧
      ((SetTemperature l id v).1 = true → ∃ (k : Nat) (e : OWListElm),
        l[k]? = some e ∧ e.ID = id ∧
        (∀ (j : Nat) (e2 : OWListElm), l[j]? = some e2 → e2.ID = id → j = k) ∧
        (SetTemperature l id v).2 = l.set k { e with Temperature := v }) ∧
      ((SetHumidity l id v).1 = true → ∃ (k : Nat) (e : OWListElm),
        l[k]? = some e ∧ e.ID = id ∧
        (∀ (j : Nat) (e2 : OWListElm), l[j]? = some e2 → e2.ID = id → j = k) ∧
        (SetHumidity l id v).2 = l.set k { e with Humidity := v })) ∧
    ((SetTemperature l id v).1 = false → (SetTemperature l id v).2 = l) ∧
    ((SetHumidity l id v).1 = false → (SetHumidity l id v).2 = l) ∧
    ((SetTemperature l idzero v).1 = true ↔ ∃ e ∈ l, e.ID = idzero) ∧
    ((SetHumidity l idzero v).1 = true ↔ ∃ e ∈ l, e.ID = idzero) ∧
    ((SetTemperature l idzero v).1 = true → ∃ (k : Nat) (e : OWListElm),
      l[k]? = some e ∧ e.ID = idzero ∧
      (∀ (j : Nat) (e2 : OWListElm), j < k → l[j]? = some e2 → e2.ID ≠ idzero) ∧
      (SetTemperature l idzero v).2 = l.set k { e with Temperature := v }) ∧
    ((SetHumidity l idzero v).1 = true → ∃ (k : Nat) (e : OWListElm),
      l[k]? = some e ∧ e.ID = idzero ∧
      (∀ (j : Nat) (e2 : OWListElm), j < k → l[j]? = some e2 → e2.ID ≠ idzero) ∧
      (SetHumidity l idzero v).2 = l.set k { e with Humidity := v }) := by
  have hzt := set_field_zero (fun e => { e with Temperature := v }) l
  have hzh := set_field_zero (fun e => { e with Humidity := v }) l
  refine ⟨?_, ?_, ?_, hzt.1, hzh.1, hzt.2, hzh.2⟩
  · intro hid
    have hnd : NoDuplicate l := by rw [hl]; exact (inv_run ops _ (inv_ClearAll l0)).1
    have hadded : (FindElm l id).isSome = true ↔ addedBy l0 ops id := by
      rw [FindElm_isSome, hl]
      exact mem_run_iff_added l0 ops id hid
    have huniq : ∀ (k : Nat) (e : OWListElm), l[k]? = some e → e.ID = id →
        ∀ (j : Nat) (e2 : OWListElm), l[j]? = some e2 → e2.ID = id → j = k := by
      intro k e hk hke j e2 hj hje
      exact hnd j k id ((ids_getElem? l j id).mpr ⟨e2, hj, hje⟩)
        ((ids_getElem? l k id).mpr ⟨e, hk, hke⟩) hid
    unfold SetTemperature SetHumidity
    refine ⟨?_, ?_, ?_, ?_⟩
    · rw [← hadded]
      cases FindElm l id <;> simp
    · rw [← hadded]
      cases FindElm l id <;> simp
    · rcases set_field_effect (fun e => { e with Temperature := v }) l id with
        ⟨-, hr⟩ | ⟨k, e, -, hget, hke, hr⟩
      · intro h; rw [hr] at h; cases h
      · intro _; exact ⟨k, e, hget, hke, huniq k e hget hke, by rw [hr]⟩
    · rcases set_field_effect (fun e => { e with Humidity := v }) l id with
        ⟨-, hr⟩ | ⟨k, e, -, hget, hke, hr⟩
      · intro h; rw [hr] at h; cases h
      · intro _; exact ⟨k, e, hget, hke, huniq k e hget hke, by rw [hr]⟩
  · unfold SetTemperature
    rcases set_field_effect (fun e => { e with Temperature := v }) l id with
      ⟨-, hr⟩ | ⟨k, e, -, -, -, hr⟩
    · intro _; rw [hr]
    · intro h; rw [hr] at h; cases h
  · unfold SetHumidity
    rcases set_field_effect (fun e => { e with Humidity := v }) l id with
      ⟨-, hr⟩ | ⟨k, e, -, -, -, hr⟩
    · intro _; rw [hr]
    · intro h; rw [hr] at h; cases h

/-- Instance of the amended C19: after AddElm(sampleId) on the cleared table,
SetTemperature(sampleId, 300) returns true, as the history says. -/
theorem set_field_spec_witness :
    (SetTemperature (run (ClearAll (junkTable 2)) [Op.add sampleId]) sampleId 300).1 = true ↔
      addedBy (junkTable 2) [Op.add sampleId] sampleId :=
  ((set_field_spec (junkTable 2) [Op.add sampleId]
    (run (ClearAll (junkTable 2)) [Op.add sampleId]) sampleId 300 rfl).1 (by decide)).1

/-- C20 fails on the code for a negative position when MaxListCount is a signed
constant: GetOWIDByListPosition(-1) passes the only check, listPos >= MaxListCount,
and hands out the ID of entry -1, in front of the table. (With an unsigned
MaxListCount the comparison converts -1 to 4294967295 and the call returns null.) -/
theorem list_position_negative :
    GetOWIDByListPosition false 10 (-1) = some (-1) ∧ ¬ (0 ≤ (-1 : Int)) ∧
    GetOWIDByListPosition true 10 (-1) = none := by
  decide

/-- GetModbusMem returns null exactly when address + size (the sum not wrapped)
exceeds sizeof(intlist); otherwise it returns the location at byte offset address,
and the range from address to address + size lies inside the table. -/
theorem GetModbusMem_safe (sizeofIntlist address size : Nat) :
    (GetModbusMem sizeofIntlist address size = none ↔ address + size > sizeofIntlist) ∧
    (∀ off, GetModbusMem sizeofIntlist address size = some off →
      off = address ∧ off + size ≤ sizeofIntlist) := by
  unfold GetModbusMem
  by_cases h : address + size > sizeofIntlist
  · simp [h]
  · simp only [h, if_false, iff_false, not_false_eq_true, true_and, reduceCtorEq,
      Option.some.injEq]
    intro off hoff
    subst hoff
    exact ⟨rfl, by omega⟩

/-- Instance: 12 bytes at offset 108 of a 120-byte table. -/
theorem GetModbusMem_safe_witness : 108 = 108 ∧ 108 + 12 ≤ 120 :=
  (GetModbusMem_safe 120 108 12).2 108 (by decide)

/-- For a position that is not negative, GetOWIDByListPosition returns null or
the ID of an entry with index below MaxListCount, whether MaxListCount is a
signed or an unsigned constant. -/
theorem list_position_safe (countIsUnsigned : Bool) (MaxListCount : Nat) (listPos : Int)
    (hpos : 0 ≤ listPos) (hint : listPos < 2147483648) :
    GetOWIDByListPosition countIsUnsigned MaxListCount listPos = none ∨
    (GetOWIDByListPosition countIsUnsigned MaxListCount listPos = some listPos ∧
      0 ≤ listPos ∧ listPos < MaxListCount) := by
  unfold GetOWIDByListPosition
  have hmod : listPos % 4294967296 = listPos := Int.emod_eq_of_lt hpos (by omega)
  cases countIsUnsigned
  · simp only [Bool.false_eq_true, if_false]
    by_cases h : listPos ≥ (MaxListCount : Int)
    · left; simp [h]
    · right; simp only [h, if_false, true_and]; omega
  · simp only [if_true, hmod]
    by_cases h : listPos ≥ (MaxListCount : Int)
    · left; simp [h]
    · right; simp only [h, if_false, true_and]; omega

/-- Instance: position 3 of a 10-entry table. -/
theorem list_position_safe_witness :
    GetOWIDByListPosition false 10 3 = none ∨
    (GetOWIDByListPosition false 10 3 = some 3 ∧ 0 ≤ (3 : Int) ∧ (3 : Int) < (10 : Nat)) :=
  list_position_safe false 10 3 (by decide) (by decide)

end OWire
